import Mathlib

/-!
MultithreadingBank: a shallow embedding of `main.c`.

The program keeps a singly linked chain of nodes, each pointing to a heap
allocated `bank_account`.  The embedding keeps the heap of account objects
and the chain of account pointers apart, so that aliasing (`from == to`),
`NULL` and dangling pointers are all visible.

* An account pointer is `Option Nat`: `none` is `NULL`, `some a` is the address
  of the account object `heap[a]`.
* A C `int` is an `Int`; every run-time arithmetic result that is stored in an
  `int` goes through `wrap32` (32-bit two's complement).
* A computation that dereferences `NULL` (or a dangling pointer), or divides by
  zero, faults: it returns `none`.
* `rand()` is an external source: `rand k` is the result of the `k`-th call, and
  the memory counts the calls made so far.
* The three mutexes serialise the critical sections; in the sequential
  semantics `pthread_mutex_lock`/`unlock` do not change the memory.  The
  `_traced` functions return, next to the result, the lock and unlock calls
  issued, and `lock_discipline` checks such a sequence.
* Several workers are an interleaving of their critical sections: `worker_step`
  runs the next critical section of one worker on the shared memory, and a
  schedule names the worker to run at each step.
* Memory layout is not modelled: `malloc` yields a fresh object, an identifier
  buffer is a string, `%d` is the decimal rendering `toString`, and the depth of
  the call stack is not bounded.
-/

namespace MultithreadingBank

/-! Machine integers -/

/-- Smallest value of a 32-bit `int`. -/
def INT_MIN : Int := -2147483648

/-- Largest value of a 32-bit `int`. -/
def INT_MAX : Int := 2147483647

/-- The value an `int` holds after the exact result `x` is stored in it
(32-bit two's complement wrap-around). -/
def wrap32 (x : Int) : Int := (x + 2147483648) % 4294967296 - 2147483648

/-- The exact value `x` is representable in an `int`. -/
def in_int_range (x : Int) : Prop := INT_MIN ≤ x ∧ x ≤ INT_MAX

instance (x : Int) : Decidable (in_int_range x) := by
  unfold in_int_range; infer_instance

/-- The C operator `%` on `int` (truncated remainder); a zero divisor faults. -/
def c_mod (a b : Int) : Option Int :=
  if b = 0 then none else some (Int.tmod a b)

/-! Data model -/

/-- The record `struct bank_account`. -/
structure bank_account where
  balance : Int
  identifier : String
deriving DecidableEq

/-- The global state of the program.  `heap` holds the allocated account
objects (an address is an index), `bank_account_chain` lists the account
pointers held by the chain nodes from the head on (`[]` is the `NULL` chain). -/
structure Memory where
  heap : List bank_account
  bank_account_chain : List Nat
  transaction_count : Int
  program_running : Int
  rand_calls : Nat
deriving DecidableEq

/-- Reads `p->balance`. -/
def read_balance (m : Memory) (p : Option Nat) : Option Int :=
  match p with
  | none => none
  | some a => (m.heap[a]?).map bank_account.balance

/-- The account `acc` with its field `balance` overwritten by `v`. -/
def set_balance (acc : bank_account) (v : Int) : bank_account :=
  { acc with balance := v }

/-- Writes `p->balance = v`. -/
def write_balance (m : Memory) (p : Option Nat) (v : Int) : Option Memory :=
  match p with
  | none => none
  | some a =>
    match m.heap[a]? with
    | none => none
    | some acc => some { m with heap := m.heap.set a (set_balance acc v) }

/-- Reads `p->identifier` of the account at address `a`. -/
def read_identifier (m : Memory) (a : Nat) : Option String :=
  (m.heap[a]?).map bank_account.identifier

/-! Registry operations -/

/-- The function `create_bank_chain`: the chain becomes one node holding `account`. -/
def create_bank_chain (m : Memory) (account : Nat) : Memory :=
  { m with bank_account_chain := [account] }

/-- The `else` branch of `add_bank_account`, entered at the node holding `x`
followed by the nodes `rest`: walk to the tail node and link a new node holding
`account` behind it. -/
def link_behind_tail (account : Nat) : Nat → List Nat → List Nat
  | x, [] => [x, account]
  | x, y :: rest => x :: link_behind_tail account y rest

/-- The function `add_bank_account`. -/
def add_bank_account (m : Memory) (account : Nat) : Memory :=
  match m.bank_account_chain with
  | [] => create_bank_chain m account
  | x :: rest => { m with bank_account_chain := link_behind_tail account x rest }

/-- The `do ... while` scan of `get_bank_account`, with `current_account_node`
at the node holding `a` and followed by the nodes `rest`.  The result is the
returned pointer. -/
def get_bank_account_scan (m : Memory) (identifier : String) :
    Nat → List Nat → Option (Option Nat)
  | a, rest =>
    match read_identifier m a with
    | none => none
    | some s =>
      if s = identifier then some (some a)
      else
        match rest with
        | [] => some none
        | b :: rest1 => get_bank_account_scan m identifier b rest1

/-- The function `get_bank_account`.  The loop body runs before the first
`NULL` test, so the `NULL` chain is dereferenced. -/
def get_bank_account (m : Memory) (identifier : String) : Option (Memory × Option Nat) :=
  match m.bank_account_chain with
  | [] => none
  | a :: rest => (get_bank_account_scan m identifier a rest).map (fun r => (m, r))

/-- The function `transfer_money`. -/
def transfer_money (m : Memory) (from_ to_ : Option Nat) (amount : Int) :
    Option (Memory × Int) :=
  (read_balance m from_).bind fun b =>
    if b < amount then some (m, 0)
    else
      (write_balance m from_ (wrap32 (b - amount))).bind fun m1 =>
        (read_balance m1 to_).bind fun b2 =>
          (write_balance m1 to_ (wrap32 (b2 + amount))).bind fun m2 =>
            some (m2, 1)

/-! Seeding -/

/-- The text `"bank account %d"` formatted with `k`. -/
def format_identifier (k : Int) : String := "bank account " ++ toString k

/-- One pass of the loop body of `setup_bank_chain_test_data` with loop counter `i`. -/
def setup_bank_chain_test_data_body (rand : Nat → Int) (i : Int) (m : Memory) : Memory :=
  let account := m.heap.length
  let identifier := format_identifier (wrap32 (i + 1))
  let balance := wrap32 (Int.tmod (rand m.rand_calls) 20000 + 10000)
  let m1 : Memory :=
    { m with heap := m.heap ++ [{ balance := balance, identifier := identifier }],
             rand_calls := m.rand_calls + 1 }
  add_bank_account m1 account

/-- The `for` loop of `setup_bank_chain_test_data`, with `remaining` passes left
and the loop counter at `i`. -/
def setup_bank_chain_test_data_loop (rand : Nat → Int) : Nat → Nat → Memory → Memory
  | 0, _, m => m
  | remaining + 1, i, m =>
    setup_bank_chain_test_data_loop rand remaining (i + 1)
      (setup_bank_chain_test_data_body rand i m)

/-- The function `setup_bank_chain_test_data`, the constant
`TEST_BANK_ACCOUNTS_COUNT` taken as a parameter. -/
def setup_bank_chain_test_data (rand : Nat → Int) (TEST_BANK_ACCOUNTS_COUNT : Nat)
    (m : Memory) : Memory :=
  setup_bank_chain_test_data_loop rand TEST_BANK_ACCOUNTS_COUNT 0 m

/-! Worker -/

/-- One pass of `setup_bank_chain_test_thread` up to and including the
increment of `transaction_count` (the quota test comes after it). -/
def worker_iteration (rand : Nat → Int) (TEST_BANK_ACCOUNTS_COUNT : Int) (m : Memory) :
    Option Memory :=
  (c_mod (rand m.rand_calls) (TEST_BANK_ACCOUNTS_COUNT - 1)).bind fun k1 =>
    (c_mod (rand (m.rand_calls + 1)) (TEST_BANK_ACCOUNTS_COUNT - 1)).bind fun k2 =>
      let random_account_id1 := format_identifier (wrap32 (k1 + 1))
      let random_account_id2 := format_identifier (wrap32 (k2 + 1))
      let transfer_amount := Int.tmod (rand (m.rand_calls + 2)) 500
      let m0 : Memory := { m with rand_calls := m.rand_calls + 3 }
      (get_bank_account m0 random_account_id1).bind fun r1 =>
        (get_bank_account r1.1 random_account_id2).bind fun r2 =>
          (transfer_money r2.1 r1.2 r2.2 transfer_amount).bind fun r3 =>
            some { r3.1 with transaction_count := wrap32 (r3.1.transaction_count + 1) }

/-- The function `setup_bank_chain_test_thread`; the self-call is bounded by
`fuel`, and running out of fuel gives `none`.  The constants
`TEST_BANK_ACCOUNTS_COUNT` and `TEST_MAX_TRANSACTION_COUNT` are parameters. -/
def setup_bank_chain_test_thread (rand : Nat → Int)
    (TEST_BANK_ACCOUNTS_COUNT TEST_MAX_TRANSACTION_COUNT : Int) :
    Nat → Memory → Option Memory
  | 0, _ => none
  | fuel + 1, m =>
    (worker_iteration rand TEST_BANK_ACCOUNTS_COUNT m).bind fun m1 =>
      let condition := decide (m1.transaction_count ≥ TEST_MAX_TRANSACTION_COUNT)
      if !condition then
        setup_bank_chain_test_thread rand TEST_BANK_ACCOUNTS_COUNT
          TEST_MAX_TRANSACTION_COUNT fuel m1
      else
        some { m1 with program_running := 0 }

/-- The state after `k` passes of the worker body, when none of them faults. -/
def worker_iterations (rand : Nat → Int) (TEST_BANK_ACCOUNTS_COUNT : Int) :
    Nat → Memory → Option Memory
  | 0, m => some m
  | k + 1, m =>
    (worker_iterations rand TEST_BANK_ACCOUNTS_COUNT k m).bind
      (worker_iteration rand TEST_BANK_ACCOUNTS_COUNT)

/-! Observations on a memory -/

/-- The balance of the account at address `a` (0 for a dangling address). -/
def balance_at (m : Memory) (a : Nat) : Int :=
  ((m.heap[a]?).map bank_account.balance).getD 0

/-- The sum of the balances of the accounts of the registry. -/
def total_balance (m : Memory) : Int :=
  (m.bank_account_chain.map (balance_at m)).sum

/-- Every node of the chain points to an allocated account, and no two nodes
point to the same account. -/
def registry_ok (m : Memory) : Prop :=
  (∀ a ∈ m.bank_account_chain, a < m.heap.length) ∧ m.bank_account_chain.Nodup

instance (m : Memory) : Decidable (registry_ok m) := by
  unfold registry_ok; infer_instance

/-- A call `transfer_money(from, to, amount)` on two accounts given by address. -/
structure transfer_call where
  from_ : Nat
  to_ : Nat
  amount : Int
deriving DecidableEq

/-- The memories after each call of a sequence of `transfer_money` calls, in
order; `none` when a call faults. -/
def run_transfers (m : Memory) : List transfer_call → Option (List Memory)
  | [] => some []
  | c :: cs =>
    (transfer_money m (some c.from_) (some c.to_) c.amount).bind fun r =>
      (run_transfers r.1 cs).map (fun ms => r.1 :: ms)

/-- The memory the program starts with: no account, `transaction_count = 0`,
`program_running = 1`. -/
def initial_memory : Memory :=
  { heap := [], bank_account_chain := [], transaction_count := 0,
    program_running := 1, rand_calls := 0 }

/-- The registry of the concrete scenario: three accounts named as by seeding,
with the given balances. -/
def scenario_memory (b1 b2 b3 : Int) : Memory :=
  { heap := [⟨b1, "bank account 1"⟩, ⟨b2, "bank account 2"⟩, ⟨b3, "bank account 3"⟩],
    bank_account_chain := [0, 1, 2], transaction_count := 0,
    program_running := 1, rand_calls := 0 }

/-- The two arithmetic operations of the call `c` on the memory `m` do not leave
the `int` range: either the call is refused, or both the exact difference
`from->balance - amount` and the exact sum `to->balance + amount` (with
`to->balance` read after the subtraction, which matters when `from == to`) are
representable. -/
def transfer_exact (m : Memory) (c : transfer_call) : Prop :=
  balance_at m c.from_ < c.amount ∨
    (in_int_range (balance_at m c.from_ - c.amount) ∧
      in_int_range
        ((if c.to_ = c.from_ then balance_at m c.from_ - c.amount else balance_at m c.to_)
          + c.amount))

instance (m : Memory) (c : transfer_call) : Decidable (transfer_exact m c) := by
  unfold transfer_exact; infer_instance

/-- No call of the sequence, run from `m`, wraps around. -/
def transfers_exact : Memory → List transfer_call → Prop
  | _, [] => True
  | m, c :: cs =>
    transfer_exact m c ∧
      match transfer_money m (some c.from_) (some c.to_) c.amount with
      | none => True
      | some r => transfers_exact r.1 cs

/-- The state of the registry after `i` passes of the seeding loop on an empty
chain: `i` nodes pointing to distinct allocated accounts, the `j`-th of them
(from 0) named `"bank account <j+1>"` with a balance between 10000 and 29999. -/
def seeded_upto (i : Nat) (m : Memory) : Prop :=
  m.bank_account_chain.length = i ∧ registry_ok m ∧
    ∀ j : Nat, j < i → ∃ a acc, m.bank_account_chain[j]? = some a ∧ m.heap[a]? = some acc ∧
      acc.identifier = "bank account " ++ toString (j + 1) ∧
      10000 ≤ acc.balance ∧ acc.balance ≤ 29999

/-- What the worker relies on: the chain is not `NULL`, its nodes point to
allocated accounts, and every identifier `"bank account <k>"` with
`1 <= k <= TEST_BANK_ACCOUNTS_COUNT - 1` names an account of the registry. -/
def worker_ready (TEST_BANK_ACCOUNTS_COUNT : Int) (m : Memory) : Prop :=
  m.bank_account_chain ≠ [] ∧ (∀ a ∈ m.bank_account_chain, a < m.heap.length) ∧
    ∀ k : Int, 1 ≤ k → k ≤ TEST_BANK_ACCOUNTS_COUNT - 1 →
      ∃ a ∈ m.bank_account_chain, read_identifier m a = some (format_identifier k)

/-- A registry holding the single account `"bank account 1"` with balance 100. -/
def one_account_memory : Memory :=
  { heap := [⟨100, "bank account 1"⟩], bank_account_chain := [0], transaction_count := 0,
    program_running := 1, rand_calls := 0 }

/-- A sample sequence of `rand()` results: 23456, 31375, 39294, ... -/
def sample_rand (k : Nat) : Int := 7919 * (k : Int) + 23456

/-- The function `print_account`: the line written for an account. -/
def print_account (acc : bank_account) : String :=
  acc.identifier ++ " has a balance of " ++ toString acc.balance ++ " \n"

/-- The `do ... while` loop of `list_accounts`, with `current_account_node` at
the node holding `a` and followed by the nodes `rest`.  The result is the list
of the lines written. -/
def list_accounts_loop (m : Memory) : Nat → List Nat → Option (List String)
  | a, rest =>
    match m.heap[a]? with
    | none => none
    | some acc =>
      match rest with
      | [] => some [print_account acc]
      | b :: rest1 =>
        (list_accounts_loop m b rest1).map (fun out => print_account acc :: out)

/-- The function `list_accounts`.  As in `get_bank_account`, the loop body runs
before the first `NULL` test. -/
def list_accounts (m : Memory) : Option (Memory × List String) :=
  match m.bank_account_chain with
  | [] => none
  | a :: rest => (list_accounts_loop m a rest).map (fun out => (m, out))

/-- The line `print_account` writes for the account at address `a`. -/
def account_line (m : Memory) (a : Nat) : String :=
  ((m.heap[a]?).map print_account).getD ""

/-- The account at address `a` is named `identifier`. -/
def is_named (m : Memory) (identifier : String) (a : Nat) : Bool :=
  decide (read_identifier m a = some identifier)

/-- Three allocated accounts and no chain node yet. -/
def unlinked_memory : Memory :=
  { heap := [⟨300, "savings"⟩, ⟨100, "current"⟩, ⟨200, "savings"⟩],
    bank_account_chain := [], transaction_count := 0, program_running := 1, rand_calls := 0 }

/-- The value of a decimal digit character. -/
def digit_value (c : Char) : Nat := c.toNat - 48

/-- The number read from the decimal digits `cs`, most significant first,
continuing from the value `v` read so far. -/
def decimal_value_from (v : Nat) (cs : List Char) : Nat :=
  cs.foldl (fun v c => 10 * v + digit_value c) v

/-- The registry seeded with three accounts from the `rand()` results of
`sample_rand`: balances 13456, 21375, 29294. -/
def sample_seeded_memory : Memory :=
  setup_bank_chain_test_data sample_rand 3 initial_memory

/-- The account index `(rand() % (TEST_BANK_ACCOUNTS_COUNT - 1)) + 1` the worker
formats into `"bank account %d"`, for the `rand()` result `r`. -/
def random_account_index (TEST_BANK_ACCOUNTS_COUNT r : Int) : Option Int :=
  (c_mod r (TEST_BANK_ACCOUNTS_COUNT - 1)).map fun k => wrap32 (k + 1)

/-! Lock events -/

/-- Index of the mutex guarding the chain and the balances. -/
def BANK_MUTEX_INDEX : Nat := 0

/-- Index of the mutex guarding `transaction_count`. -/
def TRANSACTION_COUNT_MUTEX_INDEX : Nat := 1

/-- Index of the mutex guarding `rand()`. -/
def RANDOM_MUTEX_INDEX : Nat := 2

/-- A call `pthread_mutex_lock(&mutex_list[i])` or
`pthread_mutex_unlock(&mutex_list[i])`. -/
inductive lock_event where
  | lock (i : Nat)
  | unlock (i : Nat)
deriving DecidableEq

/-- The function `add_bank_account` with the lock events it issues. -/
def add_bank_account_traced (m : Memory) (account : Nat) : List lock_event × Memory :=
  match m.bank_account_chain with
  | [] =>
    ([lock_event.lock BANK_MUTEX_INDEX, lock_event.unlock BANK_MUTEX_INDEX],
      create_bank_chain m account)
  | x :: rest =>
    ([lock_event.lock BANK_MUTEX_INDEX, lock_event.unlock BANK_MUTEX_INDEX],
      { m with bank_account_chain := link_behind_tail account x rest })

/-- The loop of `list_accounts` with the lock events issued from the loop on: the
unlock after the loop, or nothing when the loop faults. -/
def list_accounts_loop_traced (m : Memory) :
    Nat → List Nat → List lock_event × Option (List String)
  | a, rest =>
    match m.heap[a]? with
    | none => ([], none)
    | some acc =>
      match rest with
      | [] => ([lock_event.unlock BANK_MUTEX_INDEX], some [print_account acc])
      | b :: rest1 =>
        ((list_accounts_loop_traced m b rest1).1,
          (list_accounts_loop_traced m b rest1).2.map (fun out => print_account acc :: out))

/-- The function `list_accounts` with the lock events it issues. -/
def list_accounts_traced (m : Memory) : List lock_event × Option (Memory × List String) :=
  match m.bank_account_chain with
  | [] => ([lock_event.lock BANK_MUTEX_INDEX], none)
  | a :: rest =>
    (lock_event.lock BANK_MUTEX_INDEX :: (list_accounts_loop_traced m a rest).1,
      (list_accounts_loop_traced m a rest).2.map (fun out => (m, out)))

/-- The scan of `get_bank_account` with the lock events issued from the scan on:
the unlock before the early return of a match, the unlock after the loop, or
nothing when the scan faults. -/
def get_bank_account_scan_traced (m : Memory) (identifier : String) :
    Nat → List Nat → List lock_event × Option (Option Nat)
  | a, rest =>
    match read_identifier m a with
    | none => ([], none)
    | some s =>
      if s = identifier then ([lock_event.unlock BANK_MUTEX_INDEX], some (some a))
      else
        match rest with
        | [] => ([lock_event.unlock BANK_MUTEX_INDEX], some none)
        | b :: rest1 => get_bank_account_scan_traced m identifier b rest1

/-- The function `get_bank_account` with the lock events it issues. -/
def get_bank_account_traced (m : Memory) (identifier : String) :
    List lock_event × Option (Memory × Option Nat) :=
  match m.bank_account_chain with
  | [] => ([lock_event.lock BANK_MUTEX_INDEX], none)
  | a :: rest =>
    (lock_event.lock BANK_MUTEX_INDEX :: (get_bank_account_scan_traced m identifier a rest).1,
      (get_bank_account_scan_traced m identifier a rest).2.map (fun r => (m, r)))

/-- The function `transfer_money` with the lock events it issues. -/
def transfer_money_traced (m : Memory) (from_ to_ : Option Nat) (amount : Int) :
    List lock_event × Option (Memory × Int) :=
  match read_balance m from_ with
  | none => ([lock_event.lock BANK_MUTEX_INDEX], none)
  | some b =>
    if b < amount then
      ([lock_event.lock BANK_MUTEX_INDEX, lock_event.unlock BANK_MUTEX_INDEX], some (m, 0))
    else
      match write_balance m from_ (wrap32 (b - amount)) with
      | none => ([lock_event.lock BANK_MUTEX_INDEX], none)
      | some m1 =>
        match read_balance m1 to_ with
        | none => ([lock_event.lock BANK_MUTEX_INDEX], none)
        | some b2 =>
          match write_balance m1 to_ (wrap32 (b2 + amount)) with
          | none => ([lock_event.lock BANK_MUTEX_INDEX], none)
          | some m2 =>
            ([lock_event.lock BANK_MUTEX_INDEX, lock_event.unlock BANK_MUTEX_INDEX],
              some (m2, 1))

/-- One pass of `setup_bank_chain_test_thread`, from its first statement to the
`if (!condition)`, with the lock events it issues, those of the functions it
calls included. -/
def worker_iteration_traced (rand : Nat → Int) (TEST_BANK_ACCOUNTS_COUNT : Int)
    (m : Memory) : List lock_event × Option Memory :=
  match c_mod (rand m.rand_calls) (TEST_BANK_ACCOUNTS_COUNT - 1),
      c_mod (rand (m.rand_calls + 1)) (TEST_BANK_ACCOUNTS_COUNT - 1) with
  | some k1, some k2 =>
    let drawn := [lock_event.lock RANDOM_MUTEX_INDEX, lock_event.unlock RANDOM_MUTEX_INDEX]
    let transfer_amount := Int.tmod (rand (m.rand_calls + 2)) 500
    let m0 : Memory := { m with rand_calls := m.rand_calls + 3 }
    let g1 := get_bank_account_traced m0 (format_identifier (wrap32 (k1 + 1)))
    match g1.2 with
    | none => (drawn ++ g1.1, none)
    | some r1 =>
      let g2 := get_bank_account_traced r1.1 (format_identifier (wrap32 (k2 + 1)))
      match g2.2 with
      | none => (drawn ++ g1.1 ++ g2.1, none)
      | some r2 =>
        let t := transfer_money_traced r2.1 r1.2 r2.2 transfer_amount
        match t.2 with
        | none => (drawn ++ g1.1 ++ g2.1 ++ t.1, none)
        | some r3 =>
          (drawn ++ g1.1 ++ g2.1 ++ t.1 ++
              [lock_event.lock TRANSACTION_COUNT_MUTEX_INDEX,
                lock_event.unlock TRANSACTION_COUNT_MUTEX_INDEX],
            some { r3.1 with transaction_count := wrap32 (r3.1.transaction_count + 1) })
  | _, _ => ([lock_event.lock RANDOM_MUTEX_INDEX], none)

/-- The mutex held (`none`: no mutex) after the events `es`, when `held` is held
before them; the outer `none` when an event breaks the discipline: a lock while
a mutex is held, an unlock of a mutex that is not the one held, or a mutex
that is not one of the three. -/
def lock_discipline : Option Nat → List lock_event → Option (Option Nat)
  | held, [] => some held
  | none, lock_event.lock i :: es => if i < 3 then lock_discipline (some i) es else none
  | some _, lock_event.lock _ :: _ => none
  | none, lock_event.unlock _ :: _ => none
  | some j, lock_event.unlock i :: es => if i = j then lock_discipline none es else none

/-- The events of a function that takes one mutex: after them nothing is held
when the function has returned, and that mutex is held when it has faulted. -/
def one_mutex_discipline (i : Nat) (es : List lock_event) (returned : Bool) : Prop :=
  lock_discipline none es = some (if returned then none else some i)

/-! Several workers -/

/-- The point a worker thread has reached in `setup_bank_chain_test_thread`,
with the values of its local variables that are still needed.  From one point
to the next the thread runs one critical section, or the final `if`. -/
inductive worker_pc where
  | start
  | lookup1 (random_account_id1 random_account_id2 : String) (transfer_amount : Int)
  | lookup2 (random_account_id2 : String) (transfer_amount : Int)
      (bank_account1 : Option Nat)
  | transfer (bank_account1 bank_account2 : Option Nat) (transfer_amount : Int)
  | count
  | branch (condition : Bool)
  | done
deriving DecidableEq

/-- The next critical section of a worker at the point `pc`, run on the shared
memory `m`: the three `rand()` draws, the first lookup, the second lookup, the
transfer, the increment of `transaction_count` with the quota test, and the
final `if`, which either starts the next pass or writes `program_running = 0`
and returns.  `none` is a fault. -/
def worker_step (rand : Nat → Int)
    (TEST_BANK_ACCOUNTS_COUNT TEST_MAX_TRANSACTION_COUNT : Int) (m : Memory) :
    worker_pc → Option (Memory × worker_pc)
  | worker_pc.start =>
    (c_mod (rand m.rand_calls) (TEST_BANK_ACCOUNTS_COUNT - 1)).bind fun k1 =>
      (c_mod (rand (m.rand_calls + 1)) (TEST_BANK_ACCOUNTS_COUNT - 1)).bind fun k2 =>
        some ({ m with rand_calls := m.rand_calls + 3 },
          worker_pc.lookup1 (format_identifier (wrap32 (k1 + 1)))
            (format_identifier (wrap32 (k2 + 1))) (Int.tmod (rand (m.rand_calls + 2)) 500))
  | worker_pc.lookup1 id1 id2 amount =>
    (get_bank_account m id1).map fun r => (r.1, worker_pc.lookup2 id2 amount r.2)
  | worker_pc.lookup2 id2 amount account1 =>
    (get_bank_account m id2).map fun r => (r.1, worker_pc.transfer account1 r.2 amount)
  | worker_pc.transfer account1 account2 amount =>
    (transfer_money m account1 account2 amount).map fun r => (r.1, worker_pc.count)
  | worker_pc.count =>
    some ({ m with transaction_count := wrap32 (m.transaction_count + 1) },
      worker_pc.branch
        (decide (wrap32 (m.transaction_count + 1) ≥ TEST_MAX_TRANSACTION_COUNT)))
  | worker_pc.branch condition =>
    if !condition then some (m, worker_pc.start)
    else some ({ m with program_running := 0 }, worker_pc.done)
  | worker_pc.done => some (m, worker_pc.done)

/-- The shared memory, the points the worker threads have reached, and whether
the process has faulted. -/
structure Config where
  memory : Memory
  workers : List worker_pc
  faulted : Bool
deriving DecidableEq

/-- The scheduler lets worker `w` run its next critical section.  Nothing
happens when the process has faulted or there is no such worker; a worker that
has returned stays where it is. -/
def step (rand : Nat → Int) (TEST_BANK_ACCOUNTS_COUNT TEST_MAX_TRANSACTION_COUNT : Int)
    (w : Nat) (c : Config) : Config :=
  if c.faulted then c
  else
    match c.workers[w]? with
    | none => c
    | some pc =>
      match worker_step rand TEST_BANK_ACCOUNTS_COUNT TEST_MAX_TRANSACTION_COUNT c.memory pc with
      | none => { c with faulted := true }
      | some r => { memory := r.1, workers := c.workers.set w r.2, faulted := false }

/-- An interleaving: the workers run their critical sections in the order the
schedule names them. -/
def run_schedule (rand : Nat → Int)
    (TEST_BANK_ACCOUNTS_COUNT TEST_MAX_TRANSACTION_COUNT : Int) :
    List Nat → Config → Config
  | [], c => c
  | w :: schedule, c =>
    run_schedule rand TEST_BANK_ACCOUNTS_COUNT TEST_MAX_TRANSACTION_COUNT schedule
      (step rand TEST_BANK_ACCOUNTS_COUNT TEST_MAX_TRANSACTION_COUNT w c)

/-- The configuration right after `main` has created `count` worker threads. -/
def initial_config (m : Memory) (count : Nat) : Config :=
  { memory := m, workers := List.replicate count worker_pc.start, faulted := false }

/-- 1 for a worker whose last quota test was true (it has written the flag or is
about to), 0 otherwise. -/
def observed_quota : worker_pc → Nat
  | worker_pc.branch true => 1
  | worker_pc.done => 1
  | _ => 0

/-- 1 for a worker that has executed `program_running = 0`, 0 otherwise. -/
def wrote_flag : worker_pc → Nat
  | worker_pc.done => 1
  | _ => 0

/-- The number of critical sections a worker at this point still runs before it
returns or starts the pass after the next quota test. -/
def steps_left : worker_pc → Nat
  | worker_pc.start => 6
  | worker_pc.lookup1 _ _ _ => 5
  | worker_pc.lookup2 _ _ _ => 4
  | worker_pc.transfer _ _ _ => 3
  | worker_pc.count => 2
  | worker_pc.branch true => 1
  | worker_pc.branch false => 7
  | worker_pc.done => 0

/-- The number of critical sections all workers together still run. -/
def potential (TEST_MAX_TRANSACTION_COUNT : Int) (c : Config) : Nat :=
  (c.workers.map steps_left).sum
    + 6 * (TEST_MAX_TRANSACTION_COUNT - 1 - c.memory.transaction_count).toNat

/-- The number of entries of the schedule at which a worker that had not
returned ran a critical section. -/
def effective_steps (rand : Nat → Int)
    (TEST_BANK_ACCOUNTS_COUNT TEST_MAX_TRANSACTION_COUNT : Int) :
    List Nat → Config → Nat
  | [], _ => 0
  | w :: schedule, c =>
    (match c.workers[w]? with
      | none => 0
      | some pc => if c.faulted ∨ pc = worker_pc.done then 0 else 1)
    + effective_steps rand TEST_BANK_ACCOUNTS_COUNT TEST_MAX_TRANSACTION_COUNT schedule
        (step rand TEST_BANK_ACCOUNTS_COUNT TEST_MAX_TRANSACTION_COUNT w c)

/-- The memory `m1` has the chain, the number of accounts and the identifiers
of `m`. -/
def same_registry (m m1 : Memory) : Prop :=
  m1.bank_account_chain = m.bank_account_chain ∧ m1.heap.length = m.heap.length ∧
    ∀ a, read_identifier m1 a = read_identifier m a

/-- The local variables of a worker at the point `pc` are what a pass on a
reliable registry gives: identifiers `"bank account <k>"` with
`1 <= k <= TEST_BANK_ACCOUNTS_COUNT - 1`, and pointers to allocated accounts. -/
def pc_ok (TEST_BANK_ACCOUNTS_COUNT : Int) (m : Memory) : worker_pc → Prop
  | worker_pc.lookup1 id1 id2 _ =>
    (∃ k : Int, 1 ≤ k ∧ k ≤ TEST_BANK_ACCOUNTS_COUNT - 1 ∧ id1 = format_identifier k) ∧
      ∃ k : Int, 1 ≤ k ∧ k ≤ TEST_BANK_ACCOUNTS_COUNT - 1 ∧ id2 = format_identifier k
  | worker_pc.lookup2 id2 _ account1 =>
    (∃ k : Int, 1 ≤ k ∧ k ≤ TEST_BANK_ACCOUNTS_COUNT - 1 ∧ id2 = format_identifier k) ∧
      ∃ p, account1 = some p ∧ p < m.heap.length
  | worker_pc.transfer account1 account2 _ =>
    (∃ p, account1 = some p ∧ p < m.heap.length) ∧ ∃ p, account2 = some p ∧ p < m.heap.length
  | _ => True

/-- What the step of a worker at `pc` from `m` to `m1` and `pc1` does to the
counter, the flag and the point reached. -/
def step_counts (TEST_MAX_TRANSACTION_COUNT : Int) (m : Memory) (pc : worker_pc)
    (m1 : Memory) (pc1 : worker_pc) : Prop :=
  match pc with
  | worker_pc.count =>
    m1.transaction_count = wrap32 (m.transaction_count + 1) ∧
      m1.program_running = m.program_running ∧
      pc1 = worker_pc.branch
        (decide (wrap32 (m.transaction_count + 1) ≥ TEST_MAX_TRANSACTION_COUNT))
  | worker_pc.branch true =>
    m1.transaction_count = m.transaction_count ∧ m1.program_running = 0 ∧
      pc1 = worker_pc.done
  | worker_pc.branch false =>
    m1.transaction_count = m.transaction_count ∧
      m1.program_running = m.program_running ∧ pc1 = worker_pc.start
  | worker_pc.done =>
    m1.transaction_count = m.transaction_count ∧
      m1.program_running = m.program_running ∧ pc1 = worker_pc.done
  | _ =>
    m1.transaction_count = m.transaction_count ∧
      m1.program_running = m.program_running ∧
      steps_left pc1 + 1 = steps_left pc ∧ observed_quota pc1 = 0 ∧ wrote_flag pc1 = 0

/-- What holds in every configuration a run of `count` workers with quota
`TEST_MAX_TRANSACTION_COUNT` reaches. -/
def quota_invariant (TEST_BANK_ACCOUNTS_COUNT TEST_MAX_TRANSACTION_COUNT : Int) (count : Nat)
    (c : Config) : Prop :=
  c.faulted = false ∧ c.workers.length = count ∧
    worker_ready TEST_BANK_ACCOUNTS_COUNT c.memory ∧
    (∀ pc ∈ c.workers, pc_ok TEST_BANK_ACCOUNTS_COUNT c.memory pc) ∧
    0 ≤ c.memory.transaction_count ∧
    (((c.workers.map observed_quota).sum : Nat) : Int)
      = max 0 (c.memory.transaction_count - TEST_MAX_TRANSACTION_COUNT + 1) ∧
    ((c.memory.program_running = 1 ∧ (c.workers.map wrote_flag).sum = 0) ∨
      (c.memory.program_running = 0 ∧ 0 < (c.workers.map wrote_flag).sum))

instance transfers_exact_decidable :
    (m : Memory) → (cs : List transfer_call) → Decidable (transfers_exact m cs)
  | _, [] => isTrue trivial
  | m, c :: cs =>
    match h : transfer_money m (some c.from_) (some c.to_) c.amount with
    | none => decidable_of_iff (transfer_exact m c) (by simp [transfers_exact, h])
    | some r =>
      have := transfers_exact_decidable r.1 cs
      decidable_of_iff (transfer_exact m c ∧ transfers_exact r.1 cs)
        (by simp [transfers_exact, h])

/-! Machine integers: basic facts -/

theorem wrap32_of_in_int_range {x : Int} (h : in_int_range x) : wrap32 x = x := by
  unfold in_int_range INT_MIN INT_MAX at h
  unfold wrap32
  omega

theorem wrap32_in_int_range (x : Int) : in_int_range (wrap32 x) := by
  unfold in_int_range INT_MIN INT_MAX wrap32
  omega

/-! Heap accesses -/

theorem read_balance_some (m : Memory) (a : Nat) :
    read_balance m (some a) = (m.heap[a]?).map bank_account.balance := rfl

theorem balance_at_of_get {m : Memory} {a : Nat} {acc : bank_account}
    (h : m.heap[a]? = some acc) : balance_at m a = acc.balance := by
  simp [balance_at, h]

theorem exists_get_of_lt {m : Memory} {a : Nat} (h : a < m.heap.length) :
    ∃ acc, m.heap[a]? = some acc :=
  ⟨m.heap[a], List.getElem?_eq_getElem h⟩

theorem set_of_get {α : Type} {l : List α} {a : Nat} {x : α} (h : l[a]? = some x) :
    l.set a x = l := by
  induction l generalizing a with
  | nil => rfl
  | cons y ys ih =>
    cases a with
    | zero => simp at h; simp [h]
    | succ b => simp at h; simp [ih h]

/-- A refused transfer: the guard `from->balance < amount` holds. -/
theorem transfer_money_refused {m : Memory} {f : Nat} {fa : bank_account}
    (to_ : Option Nat) {amount : Int}
    (hf : m.heap[f]? = some fa) (hlt : fa.balance < amount) :
    transfer_money m (some f) to_ amount = some (m, 0) := by
  simp [transfer_money, read_balance, hf, hlt]

/-- An accepted transfer between two allocated accounts, in terms of the heap. -/
theorem transfer_money_accepted {m : Memory} {f t : Nat} {fa ta : bank_account}
    {amount : Int} (hf : m.heap[f]? = some fa) (hge : ¬ fa.balance < amount)
    (ht : (m.heap.set f (set_balance fa (wrap32 (fa.balance - amount))))[t]? = some ta) :
    transfer_money m (some f) (some t) amount =
      some ({ m with heap :=
                ((m.heap.set f (set_balance fa (wrap32 (fa.balance - amount)))).set t
                  (set_balance ta (wrap32 (ta.balance + amount)))) }, 1) := by
  simp [transfer_money, read_balance, write_balance, hf, hge, ht]

theorem balance_at_set (m : Memory) (h : List bank_account) (a b : Nat) (acc : bank_account)
    (ha : a < h.length) :
    balance_at { m with heap := h.set a acc } b
      = if b = a then acc.balance else balance_at { m with heap := h } b := by
  by_cases hb : b = a
  · subst hb; simp [balance_at, List.getElem?_set_self ha]
  · have hne : a ≠ b := fun h => hb h.symm
    simp [balance_at, List.getElem?_set_ne hne, hb]

theorem read_identifier_set (m : Memory) (h : List bank_account) (a b : Nat)
    (acc : bank_account) (v : Int) (hacc : h[a]? = some acc) :
    read_identifier { m with heap := h.set a (set_balance acc v) } b
      = read_identifier { m with heap := h } b := by
  have ha : a < h.length := (List.getElem?_eq_some_iff.mp hacc).1
  by_cases hb : b = a
  · subst hb; simp [read_identifier, List.getElem?_set_self ha, set_balance, hacc]
  · have hne : a ≠ b := fun h => hb h.symm
    simp [read_identifier, List.getElem?_set_ne hne]

/-- What one call of `transfer_money` on two allocated accounts does to the
memory: it returns, it touches nothing but balances, and either it is refused
and changes nothing, or it is accepted and the new balances are the wrapped
difference at `f` and the wrapped sum at `t`. -/
theorem transfer_money_effect (m : Memory) (f t : Nat) (amount : Int)
    (hf : f < m.heap.length) (ht : t < m.heap.length) :
    ∃ m1 r, transfer_money m (some f) (some t) amount = some (m1, r) ∧
      m1.bank_account_chain = m.bank_account_chain ∧
      m1.heap.length = m.heap.length ∧
      m1.transaction_count = m.transaction_count ∧
      m1.program_running = m.program_running ∧
      m1.rand_calls = m.rand_calls ∧
      (∀ a, read_identifier m1 a = read_identifier m a) ∧
      ((balance_at m f < amount ∧ r = 0 ∧ m1 = m) ∨
        (amount ≤ balance_at m f ∧ r = 1 ∧
          ∀ a, balance_at m1 a =
            if a = t then
              wrap32 ((if t = f then wrap32 (balance_at m f - amount) else balance_at m t)
                + amount)
            else if a = f then wrap32 (balance_at m f - amount)
            else balance_at m a)) := by
  obtain ⟨fa, hfa⟩ := exists_get_of_lt hf
  obtain ⟨ta, hta⟩ := exists_get_of_lt ht
  by_cases hlt : fa.balance < amount
  · refine ⟨m, 0, transfer_money_refused _ hfa hlt, rfl, rfl, rfl, rfl, rfl, fun _ => rfl, ?_⟩
    left
    rw [balance_at_of_get hfa]
    exact ⟨hlt, rfl, rfl⟩
  · have ht1 : t < (m.heap.set f (set_balance fa (wrap32 (fa.balance - amount)))).length := by
      simpa using ht
    have hf1 : f < (m.heap.set f (set_balance fa (wrap32 (fa.balance - amount)))).length := by
      simpa using hf
    obtain ⟨ta1, hta1⟩ :
        ∃ x, (m.heap.set f (set_balance fa (wrap32 (fa.balance - amount))))[t]? = some x :=
      ⟨_, List.getElem?_eq_getElem ht1⟩
    have hta1b : ta1.balance
        = if t = f then wrap32 (balance_at m f - amount) else balance_at m t := by
      by_cases htf : t = f
      · subst htf
        rw [List.getElem?_set_self hf] at hta1
        have := Option.some.inj hta1
        simp [← this, set_balance, balance_at_of_get hfa]
      · have hne : f ≠ t := fun h => htf h.symm
        rw [List.getElem?_set_ne hne, hta] at hta1
        have := Option.some.inj hta1
        simp [← this, htf, balance_at_of_get hta]
    refine ⟨_, 1, transfer_money_accepted hfa hlt hta1, rfl, by simp, rfl, rfl, rfl, ?_, ?_⟩
    · intro a
      rw [read_identifier_set m _ t a ta1 _ hta1, read_identifier_set m _ f a fa _ hfa]
    · right
      refine ⟨by rw [balance_at_of_get hfa]; omega, rfl, ?_⟩
      intro a
      rw [balance_at_set m _ t a _ ht1, balance_at_set m _ f a _ hf]
      simp only [set_balance, hta1b, balance_at_of_get hfa]

/-! Sums over the chain -/

theorem sum_map_congr_of_not_mem (l : List Nat) (g g1 : Nat → Int) (x : Nat)
    (hx : x ∉ l) (h : ∀ a, a ≠ x → g1 a = g a) : (l.map g1).sum = (l.map g).sum := by
  induction l with
  | nil => rfl
  | cons y ys ih =>
    have hy : y ≠ x := fun e => hx (by simp [e])
    have hxs : x ∉ ys := fun e => hx (by simp [e])
    simp [List.map_cons, List.sum_cons, h y hy, ih hxs]

/-- Changing the summand of one node of a chain without repeated pointers
changes the sum by the same difference. -/
theorem sum_map_point_update (l : List Nat) (g g1 : Nat → Int) (x : Nat) (d : Int)
    (hnd : l.Nodup) (hx : x ∈ l) (hgx : g1 x = g x + d) (h : ∀ a, a ≠ x → g1 a = g a) :
    (l.map g1).sum = (l.map g).sum + d := by
  induction l with
  | nil => simp at hx
  | cons y ys ih =>
    rw [List.nodup_cons] at hnd
    by_cases hy : y = x
    · subst hy
      simp only [List.map_cons, List.sum_cons, hgx,
        sum_map_congr_of_not_mem ys g g1 y hnd.1 h]
      ring
    · have hxs : x ∈ ys := by
        rcases List.mem_cons.mp hx with e | e
        · exact absurd e.symm hy
        · exact e
      simp only [List.map_cons, List.sum_cons, h y hy, ih hnd.2 hxs]
      ring

/-- One call that does not wrap around, between two accounts of a registry
without repeated pointers, keeps the sum of the balances. -/
theorem transfer_money_keeps_total (m m1 : Memory) (c : transfer_call) (r : Int)
    (hnd : m.bank_account_chain.Nodup)
    (hvalid : ∀ a ∈ m.bank_account_chain, a < m.heap.length)
    (hfrom : c.from_ ∈ m.bank_account_chain) (hto : c.to_ ∈ m.bank_account_chain)
    (hexact : transfer_exact m c)
    (hrun : transfer_money m (some c.from_) (some c.to_) c.amount = some (m1, r)) :
    total_balance m1 = total_balance m := by
  obtain ⟨m2, r2, hrun2, hchain, -, -, -, -, -, hcases⟩ :=
    transfer_money_effect m c.from_ c.to_ c.amount (hvalid _ hfrom) (hvalid _ hto)
  rw [hrun] at hrun2
  obtain ⟨rfl, rfl⟩ := Prod.mk.inj (Option.some.inj hrun2)
  rcases hcases with ⟨-, -, hm⟩ | ⟨hge, -, hbal⟩
  · rw [hm]
  · rcases hexact with hlt | ⟨hsub, hadd⟩
    · omega
    · unfold total_balance
      rw [hchain]
      by_cases htf : c.to_ = c.from_
      · rw [if_pos htf] at hadd
        apply congrArg
        apply List.map_congr_left
        intro a _
        rw [hbal a]
        by_cases hat : a = c.to_
        · rw [if_pos hat, if_pos htf, wrap32_of_in_int_range hsub, wrap32_of_in_int_range hadd,
            hat, htf]
          ring
        · have haf : a ≠ c.from_ := fun e => hat (e.trans htf.symm)
          rw [if_neg hat, if_neg haf]
      · rw [if_neg htf] at hadd
        have hstep1 := sum_map_point_update m.bank_account_chain (balance_at m)
          (fun a => if a = c.from_ then balance_at m c.from_ - c.amount else balance_at m a)
          c.from_ (-c.amount) hnd hfrom (by simp; ring) (by intro a ha; simp [ha])
        have hstep2 := sum_map_point_update m.bank_account_chain
          (fun a => if a = c.from_ then balance_at m c.from_ - c.amount else balance_at m a)
          (balance_at m1) c.to_ c.amount hnd hto
          (by rw [hbal c.to_]; simp [htf, wrap32_of_in_int_range hadd])
          (by
            intro a ha
            rw [hbal a, if_neg ha]
            by_cases haf : a = c.from_
            · simp [haf, wrap32_of_in_int_range hsub]
            · simp [haf])
        rw [hstep2, hstep1]
        ring

/-- One call on two allocated accounts keeps the chain and the size of the heap. -/
theorem transfer_money_keeps_registry (m m1 : Memory) (f t : Nat) (amount r : Int)
    (hf : f < m.heap.length) (ht : t < m.heap.length)
    (hrun : transfer_money m (some f) (some t) amount = some (m1, r)) :
    m1.bank_account_chain = m.bank_account_chain ∧ m1.heap.length = m.heap.length := by
  obtain ⟨m2, r2, hrun2, hchain, hlen, -⟩ := transfer_money_effect m f t amount hf ht
  rw [hrun] at hrun2
  obtain ⟨rfl, rfl⟩ := Prod.mk.inj (Option.some.inj hrun2)
  exact ⟨hchain, hlen⟩

theorem total_balance_conserved_aux (chain : List Nat) (hnd : chain.Nodup) :
    ∀ (calls : List transfer_call) (m : Memory), m.bank_account_chain = chain →
      (∀ a ∈ chain, a < m.heap.length) →
      (∀ c ∈ calls, c.from_ ∈ chain ∧ c.to_ ∈ chain) →
      transfers_exact m calls →
      ∃ ms, run_transfers m calls = some ms ∧ ms.length = calls.length ∧
        ∀ m1 ∈ ms, total_balance m1 = total_balance m := by
  intro calls
  induction calls with
  | nil => intro m _ _ _ _; exact ⟨[], rfl, rfl, by simp⟩
  | cons c cs ih =>
    intro m hchain hvalid hcalls hexact
    have hc := hcalls c (by simp)
    obtain ⟨m1, r, hrun, -⟩ :=
      transfer_money_effect m c.from_ c.to_ c.amount (hvalid _ hc.1) (hvalid _ hc.2)
    have hkeep := transfer_money_keeps_registry m m1 _ _ _ r (hvalid _ hc.1) (hvalid _ hc.2) hrun
    simp only [transfers_exact, hrun] at hexact
    have htotal : total_balance m1 = total_balance m :=
      transfer_money_keeps_total m m1 c r (hchain ▸ hnd) (hchain ▸ hvalid)
        (hchain ▸ hc.1) (hchain ▸ hc.2) hexact.1 hrun
    obtain ⟨ms, hms, hlen, hall⟩ := ih m1 (hkeep.1.trans hchain)
      (fun a ha => hkeep.2 ▸ hvalid a ha)
      (fun c1 hc1 => hcalls c1 (by simp [hc1])) hexact.2
    refine ⟨m1 :: ms, by simp [run_transfers, hrun, hms], by simp [hlen], ?_⟩
    intro m2 hm2
    rcases List.mem_cons.mp hm2 with e | e
    · rw [e, htotal]
    · rw [hall m2 e, htotal]

/-! Lookup -/

theorem read_identifier_isSome {m : Memory} {a : Nat} (h : a < m.heap.length) :
    ∃ s, read_identifier m a = some s := by
  obtain ⟨acc, hacc⟩ := exists_get_of_lt h
  exact ⟨acc.identifier, by simp [read_identifier, hacc]⟩

/-- The scan over a chain of allocated accounts returns, and it returns the
first node whose account is named `identifier`, or `NULL` when there is none. -/
theorem get_bank_account_scan_first (m : Memory) (identifier : String) :
    ∀ (rest : List Nat) (a : Nat), (∀ x ∈ a :: rest, x < m.heap.length) →
      ∃ r, get_bank_account_scan m identifier a rest = some r ∧
        (r = none ↔ ∀ x ∈ a :: rest, read_identifier m x ≠ some identifier) ∧
        (∀ p, r = some p → ∃ i : Nat, (a :: rest)[i]? = some p ∧
          read_identifier m p = some identifier ∧
          ∀ j : Nat, j < i → ∀ b, (a :: rest)[j]? = some b →
            read_identifier m b ≠ some identifier) := by
  intro rest
  induction rest with
  | nil =>
    intro a hvalid
    obtain ⟨s, hs⟩ := read_identifier_isSome (hvalid a (by simp))
    by_cases hsi : s = identifier
    · refine ⟨some a, by simp [get_bank_account_scan, hs, hsi], ?_, ?_⟩
      · simp [hs, hsi]
      · intro p hp
        refine ⟨0, by simpa using hp, ?_, ?_⟩
        · rw [← Option.some.inj hp, hs, hsi]
        · intro j hj; omega
    · refine ⟨none, by simp [get_bank_account_scan, hs, hsi], ?_, ?_⟩
      · simp [hs, hsi]
      · intro p hp; cases hp
  | cons b rest1 ih =>
    intro a hvalid
    obtain ⟨s, hs⟩ := read_identifier_isSome (hvalid a (by simp))
    by_cases hsi : s = identifier
    · refine ⟨some a, by simp [get_bank_account_scan, hs, hsi], ?_, ?_⟩
      · simp [hs, hsi]
      · intro p hp
        refine ⟨0, by simpa using hp, ?_, ?_⟩
        · rw [← Option.some.inj hp, hs, hsi]
        · intro j hj; omega
    · obtain ⟨r, hr, hnone, hsome⟩ := ih b (fun x hx => hvalid x (List.mem_cons_of_mem _ hx))
      have ha : read_identifier m a ≠ some identifier := by
        rw [hs]; exact fun e => hsi (Option.some.inj e)
      refine ⟨r, by rw [get_bank_account_scan]; simp [hs, hsi, hr], ?_, ?_⟩
      · rw [hnone]
        constructor
        · intro h x hx
          rcases List.mem_cons.mp hx with e | e
          · rw [e]; exact ha
          · exact h x e
        · intro h x hx
          exact h x (List.mem_cons_of_mem _ hx)
      · intro p hp
        obtain ⟨i, hi, hid, hbefore⟩ := hsome p hp
        refine ⟨i + 1, by simpa using hi, hid, ?_⟩
        intro j hj c hc
        cases j with
        | zero =>
          have : c = a := by simpa using hc.symm
          rw [this]; exact ha
        | succ j1 =>
          exact hbefore j1 (by omega) c (by simpa using hc)

/-- The lookup on a non-empty chain of allocated accounts: the memory is
returned as it was, and the result is the first node's account named
`identifier`, or `NULL` when there is none. -/
theorem get_bank_account_lookup (m : Memory) (identifier : String)
    (hnonempty : m.bank_account_chain ≠ [])
    (hvalid : ∀ a ∈ m.bank_account_chain, a < m.heap.length) :
    ∃ r, get_bank_account m identifier = some (m, r) ∧
      (r = none ↔ ∀ a ∈ m.bank_account_chain, read_identifier m a ≠ some identifier) ∧
      (∀ p, r = some p → ∃ i : Nat, m.bank_account_chain[i]? = some p ∧
        read_identifier m p = some identifier ∧
        ∀ j : Nat, j < i → ∀ b, m.bank_account_chain[j]? = some b →
          read_identifier m b ≠ some identifier) := by
  cases hchain : m.bank_account_chain with
  | nil => exact absurd hchain hnonempty
  | cons a rest =>
    rw [hchain] at hvalid
    obtain ⟨r, hr, hnone, hsome⟩ := get_bank_account_scan_first m identifier rest a hvalid
    exact ⟨r, by simp [get_bank_account, hchain, hr], hnone, hsome⟩

/-! Seeding: the loop invariant -/

theorem format_identifier_natCast (k : Nat) :
    format_identifier (k : Int) = "bank account " ++ toString k := rfl

theorem link_behind_tail_eq (account : Nat) :
    ∀ (rest : List Nat) (x : Nat), link_behind_tail account x rest = (x :: rest) ++ [account] := by
  intro rest
  induction rest with
  | nil => intro x; rfl
  | cons y ys ih => intro x; simp [link_behind_tail, ih y]

/-- The function `add_bank_account` links the new node behind all the others. -/
theorem add_bank_account_eq (m : Memory) (account : Nat) :
    add_bank_account m account
      = { m with bank_account_chain := m.bank_account_chain ++ [account] } := by
  unfold add_bank_account
  cases h : m.bank_account_chain with
  | nil => simp [create_bank_chain]
  | cons x rest => simp [link_behind_tail_eq]

/-- One pass of the seeding loop: a fresh account behind the heap, a node for it
behind the chain, one more `rand()` result consumed. -/
theorem setup_bank_chain_test_data_body_eq (rand : Nat → Int) (i : Int) (m : Memory) :
    setup_bank_chain_test_data_body rand i m =
      { m with
        heap := m.heap ++ [⟨wrap32 (Int.tmod (rand m.rand_calls) 20000 + 10000),
                            format_identifier (wrap32 (i + 1))⟩],
        bank_account_chain := m.bank_account_chain ++ [m.heap.length],
        rand_calls := m.rand_calls + 1 } := by
  simp [setup_bank_chain_test_data_body, add_bank_account_eq]

/-- The seeded balance lies between 10000 and 29999. -/
theorem seeded_balance_bounds (r : Int) (hr : 0 ≤ r) :
    10000 ≤ wrap32 (Int.tmod r 20000 + 10000) ∧ wrap32 (Int.tmod r 20000 + 10000) ≤ 29999 := by
  have h1 : 0 ≤ Int.tmod r 20000 := Int.tmod_nonneg _ hr
  have h2 : Int.tmod r 20000 < 20000 := Int.tmod_lt_of_pos _ (by decide)
  have h3 : in_int_range (Int.tmod r 20000 + 10000) := by
    unfold in_int_range INT_MIN INT_MAX; omega
  rw [wrap32_of_in_int_range h3]
  omega

theorem seeded_upto_body (rand : Nat → Int) (hrand : ∀ k, 0 ≤ rand k) (i : Nat) (m : Memory)
    (hi : ((i : Int) + 1) ≤ INT_MAX) (h : seeded_upto i m) :
    seeded_upto (i + 1) (setup_bank_chain_test_data_body rand i m) := by
  obtain ⟨hlen, ⟨hvalid, hnd⟩, hacc⟩ := h
  rw [setup_bank_chain_test_data_body_eq]
  refine ⟨by simp [hlen], ⟨?_, ?_⟩, ?_⟩
  · intro a ha
    simp only [List.mem_append, List.mem_singleton] at ha
    simp only [List.length_append, List.length_singleton]
    rcases ha with ha | ha
    · have := hvalid a ha; omega
    · omega
  · simp only
    rw [List.nodup_append]
    refine ⟨hnd, List.nodup_singleton _, ?_⟩
    intro a ha hb
    simp only [List.mem_singleton] at hb
    have := hvalid a ha
    omega
  · intro j hj
    by_cases hji : j < i
    · obtain ⟨a, acc, h1, h2, h3⟩ := hacc j hji
      refine ⟨a, acc, ?_, ?_, h3⟩
      · simp only
        rw [List.getElem?_append_left (by omega)]; exact h1
      · have ha : a < m.heap.length := (List.getElem?_eq_some_iff.mp h2).1
        simp only
        rw [List.getElem?_append_left ha]; exact h2
    · have hje : j = i := by omega
      subst hje
      have hrange : in_int_range ((j : Int) + 1) := by
        unfold in_int_range INT_MIN; constructor <;> omega
      refine ⟨m.heap.length,
        ⟨wrap32 (Int.tmod (rand m.rand_calls) 20000 + 10000), format_identifier (wrap32 (j + 1))⟩,
        ?_, ?_, ?_, seeded_balance_bounds _ (hrand _)⟩
      · simp only
        rw [List.getElem?_append_right (by omega)]; simp [hlen]
      · simp only
        rw [List.getElem?_append_right (le_refl _)]; simp
      · simp only
        rw [wrap32_of_in_int_range hrange]
        exact format_identifier_natCast (j + 1)

theorem seeded_upto_loop (rand : Nat → Int) (hrand : ∀ k, 0 ≤ rand k) :
    ∀ (remaining i : Nat) (m : Memory), ((i : Int) + remaining) ≤ INT_MAX → seeded_upto i m →
      seeded_upto (i + remaining) (setup_bank_chain_test_data_loop rand remaining i m) := by
  intro remaining
  induction remaining with
  | zero => intro i m _ h; exact h
  | succ k ih =>
    intro i m hi h
    have hstep := seeded_upto_body rand hrand i m (by push_cast at hi; omega) h
    have := ih (i + 1) _ (by push_cast at hi ⊢; omega) hstep
    rw [setup_bank_chain_test_data_loop]
    have e : i + (k + 1) = i + 1 + k := by omega
    rw [e]; exact this

theorem seeded_upto_zero (m : Memory) (h : m.bank_account_chain = []) : seeded_upto 0 m := by
  refine ⟨by simp [h], ⟨by simp [h], by simp [h]⟩, ?_⟩
  intro j hj; omega

/-- The seeding loop touches neither `transaction_count` nor `program_running`. -/
theorem setup_bank_chain_test_data_loop_counters (rand : Nat → Int) :
    ∀ (remaining i : Nat) (m : Memory),
      (setup_bank_chain_test_data_loop rand remaining i m).transaction_count
          = m.transaction_count ∧
        (setup_bank_chain_test_data_loop rand remaining i m).program_running
          = m.program_running := by
  intro remaining
  induction remaining with
  | zero => intro i m; exact ⟨rfl, rfl⟩
  | succ k ih =>
    intro i m
    rw [setup_bank_chain_test_data_loop]
    have := ih (i + 1) (setup_bank_chain_test_data_body rand i m)
    rw [setup_bank_chain_test_data_body_eq] at this
    rw [setup_bank_chain_test_data_body_eq]
    exact this

/-- A seeded registry of at least two accounts is what the worker relies on. -/
theorem worker_ready_of_seeded (n : Nat) (m : Memory) (hn : 2 ≤ n) (h : seeded_upto n m) :
    worker_ready (n : Int) m := by
  obtain ⟨hlen, ⟨hvalid, -⟩, hacc⟩ := h
  refine ⟨?_, hvalid, ?_⟩
  · intro e; rw [e] at hlen; simp at hlen; omega
  · intro k hk1 hk2
    obtain ⟨j, hj⟩ : ∃ j : Nat, k = ((j + 1 : Nat) : Int) := ⟨(k - 1).toNat, by omega⟩
    subst hj
    obtain ⟨a, acc, h1, h2, h3, -⟩ := hacc j (by omega)
    refine ⟨a, List.getElem?_mem h1, ?_⟩
    rw [format_identifier_natCast]
    simp [read_identifier, h2, h3]

/-- On a memory the worker can rely on, the lookup of `"bank account <k>"` with
`1 <= k <= TEST_BANK_ACCOUNTS_COUNT - 1` returns an allocated account. -/
theorem get_bank_account_of_worker_ready (N : Int) (m : Memory) (h : worker_ready N m)
    (k : Int) (hk1 : 1 ≤ k) (hk2 : k ≤ N - 1) :
    ∃ p, get_bank_account m (format_identifier k) = some (m, some p) ∧ p < m.heap.length := by
  obtain ⟨hne, hvalid, hnames⟩ := h
  obtain ⟨r, hr, hnone, hsome⟩ := get_bank_account_lookup m (format_identifier k) hne hvalid
  cases r with
  | none =>
    obtain ⟨a, ha, hid⟩ := hnames k hk1 hk2
    exact absurd hid (hnone.mp rfl a ha)
  | some p =>
    obtain ⟨i, hi, -⟩ := hsome p rfl
    exact ⟨p, hr, hvalid p (List.getElem?_mem hi)⟩

/-- One pass of the worker on a memory it can rely on: no fault, the registry
stays reliable, `transaction_count` goes up by one whether the transfer was
accepted or refused, `program_running` is not written. -/
theorem worker_iteration_counts (rand : Nat → Int) (hrand : ∀ k, 0 ≤ rand k) (N : Int)
    (hN : 2 ≤ N) (hNint : N ≤ INT_MAX) (m : Memory) (h : worker_ready N m) :
    ∃ m1, worker_iteration rand N m = some m1 ∧ worker_ready N m1 ∧
      m1.transaction_count = wrap32 (m.transaction_count + 1) ∧
      m1.program_running = m.program_running := by
  have hne : N - 1 ≠ 0 := by omega
  have hpos : (0 : Int) < N - 1 := by omega
  have index_ok : ∀ r : Int, 0 ≤ r →
      1 ≤ wrap32 (Int.tmod r (N - 1) + 1) ∧ wrap32 (Int.tmod r (N - 1) + 1) ≤ N - 1 := by
    intro r hr
    have h1 : 0 ≤ Int.tmod r (N - 1) := Int.tmod_nonneg _ hr
    have h2 : Int.tmod r (N - 1) < N - 1 := Int.tmod_lt_of_pos _ hpos
    have h3 : in_int_range (Int.tmod r (N - 1) + 1) := by
      unfold in_int_range INT_MIN; unfold INT_MAX at *; constructor <;> omega
    rw [wrap32_of_in_int_range h3]
    omega
  have hready0 : worker_ready N { m with rand_calls := m.rand_calls + 3 } := h
  obtain ⟨p1, hp1, hp1v⟩ := get_bank_account_of_worker_ready N _ hready0 _
    (index_ok _ (hrand m.rand_calls)).1 (index_ok _ (hrand m.rand_calls)).2
  obtain ⟨p2, hp2, hp2v⟩ := get_bank_account_of_worker_ready N _ hready0 _
    (index_ok _ (hrand (m.rand_calls + 1))).1 (index_ok _ (hrand (m.rand_calls + 1))).2
  obtain ⟨m3, r3, hrun, hchain, hlen, htc, hpr, -, hid, -⟩ :=
    transfer_money_effect { m with rand_calls := m.rand_calls + 3 } p1 p2
      (Int.tmod (rand (m.rand_calls + 2)) 500) hp1v hp2v
  refine ⟨{ m3 with transaction_count := wrap32 (m3.transaction_count + 1) }, ?_, ?_, ?_, ?_⟩
  · simp only [worker_iteration, c_mod, if_neg hne, Option.some_bind, hp1, hp2, hrun]
  · obtain ⟨hne0, hvalid0, hnames0⟩ := hready0
    refine ⟨?_, ?_, ?_⟩
    · simp only [hchain]; exact hne0
    · intro a ha
      simp only [hchain] at ha
      simp only [hlen]; exact hvalid0 a ha
    · intro k hk1 hk2
      obtain ⟨a, ha, hida⟩ := hnames0 k hk1 hk2
      refine ⟨a, by simp only [hchain]; exact ha, ?_⟩
      have : read_identifier { m3 with transaction_count := wrap32 (m3.transaction_count + 1) } a
          = read_identifier m3 a := rfl
      rw [this, hid a]; exact hida
  · simp only [htc]
  · simp only [hpr]

/-- The first `k` passes of a worker started with `transaction_count = 0` on a
memory it can rely on: none faults, and after them `transaction_count = k`. -/
theorem worker_iterations_count (rand : Nat → Int) (hrand : ∀ k, 0 ≤ rand k) (N : Int)
    (hN : 2 ≤ N) (hNint : N ≤ INT_MAX) (m : Memory) (h : worker_ready N m)
    (hcount : m.transaction_count = 0) :
    ∀ k : Nat, (k : Int) ≤ INT_MAX →
      ∃ mk, worker_iterations rand N k m = some mk ∧ worker_ready N mk ∧
        mk.transaction_count = k ∧ mk.program_running = m.program_running := by
  intro k
  induction k with
  | zero => intro _; exact ⟨m, rfl, h, by simp [hcount], rfl⟩
  | succ k ih =>
    intro hk
    obtain ⟨mk, hmk, hready, htc, hpr⟩ := ih (by push_cast at hk; omega)
    obtain ⟨m1, hm1, hready1, htc1, hpr1⟩ :=
      worker_iteration_counts rand hrand N hN hNint mk hready
    refine ⟨m1, by simp [worker_iterations, hmk, hm1], hready1, ?_, by rw [hpr1, hpr]⟩
    have hrange : in_int_range ((k : Int) + 1) := by
      unfold in_int_range INT_MIN; unfold INT_MAX at *; push_cast at hk; constructor <;> omega
    rw [htc1, htc, wrap32_of_in_int_range hrange]
    push_cast; rfl

/-- After `k` passes with `k` below the quota the thread is at its self-call:
running it from the start with `k` more units of fuel is running it from the
memory reached after `k` passes. -/
theorem setup_bank_chain_test_thread_after (rand : Nat → Int) (hrand : ∀ k, 0 ≤ rand k)
    (N Q : Int) (hN : 2 ≤ N) (hNint : N ≤ INT_MAX) (hQint : Q ≤ INT_MAX) (m : Memory)
    (h : worker_ready N m) (hcount : m.transaction_count = 0) :
    ∀ k : Nat, (k : Int) < Q →
      ∃ mk, worker_iterations rand N k m = some mk ∧
        ∀ fuel, setup_bank_chain_test_thread rand N Q (k + fuel) m
          = setup_bank_chain_test_thread rand N Q fuel mk := by
  intro k
  induction k with
  | zero => intro _; exact ⟨m, rfl, fun fuel => by simp⟩
  | succ k ih =>
    intro hk
    obtain ⟨mk, hmk, hrun⟩ := ih (by push_cast at hk; omega)
    obtain ⟨m1, hm1, -, htc1, -⟩ :=
      worker_iterations_count rand hrand N hN hNint m h hcount (k + 1) (by omega)
    have hstep : worker_iteration rand N mk = some m1 := by
      simpa [worker_iterations, hmk] using hm1
    refine ⟨m1, hm1, ?_⟩
    intro fuel
    have e : k + 1 + fuel = k + (fuel + 1) := by omega
    rw [e, hrun (fuel + 1), setup_bank_chain_test_thread]
    have hcond : ¬ (m1.transaction_count ≥ Q) := by rw [htc1]; omega
    simp [hstep, hcond]

/-! Traversals of the chain -/

theorem list_accounts_loop_eq (m : Memory) :
    ∀ (rest : List Nat) (a : Nat), (∀ x ∈ a :: rest, x < m.heap.length) →
      list_accounts_loop m a rest = some ((a :: rest).map (account_line m)) := by
  intro rest
  induction rest with
  | nil =>
    intro a hvalid
    obtain ⟨acc, hacc⟩ := exists_get_of_lt (hvalid a (by simp))
    simp [list_accounts_loop, account_line, hacc]
  | cons b rest1 ih =>
    intro a hvalid
    obtain ⟨acc, hacc⟩ := exists_get_of_lt (hvalid a (by simp))
    have hrest := ih b (fun x hx => hvalid x (List.mem_cons_of_mem _ hx))
    rw [list_accounts_loop]
    simp [account_line, hacc, hrest]

theorem get_bank_account_scan_eq_find (m : Memory) (identifier : String) :
    ∀ (rest : List Nat) (a : Nat), (∀ x ∈ a :: rest, x < m.heap.length) →
      get_bank_account_scan m identifier a rest
        = some ((a :: rest).find? (is_named m identifier)) := by
  intro rest
  induction rest with
  | nil =>
    intro a hvalid
    obtain ⟨s, hs⟩ := read_identifier_isSome (hvalid a (by simp))
    by_cases hsi : s = identifier
    · simp [get_bank_account_scan, is_named, hs, hsi]
    · simp [get_bank_account_scan, is_named, hs, hsi]
  | cons b rest1 ih =>
    intro a hvalid
    obtain ⟨s, hs⟩ := read_identifier_isSome (hvalid a (by simp))
    have hrest := ih b (fun x hx => hvalid x (List.mem_cons_of_mem _ hx))
    by_cases hsi : s = identifier
    · simp [get_bank_account_scan, is_named, hs, hsi]
    · rw [get_bank_account_scan]
      simp only [hs, hsi, if_false, hrest]
      have : is_named m identifier a = false := by simp [is_named, hs, hsi]
      rw [List.find?_cons (a := a), this]

theorem foldl_add_bank_account (as : List Nat) :
    ∀ m : Memory, as.foldl add_bank_account m
      = { m with bank_account_chain := m.bank_account_chain ++ as } := by
  induction as with
  | nil => intro m; simp
  | cons a rest ih =>
    intro m
    rw [List.foldl_cons, ih, add_bank_account_eq]
    simp

/-! The decimal rendering is injective -/

theorem digit_value_digitChar (d : Nat) (h : d < 10) : digit_value (Nat.digitChar d) = d := by
  interval_cases d <;> decide

theorem decimal_value_toDigitsCore :
    ∀ (fuel n : Nat) (ds : List Char), n < fuel →
      decimal_value_from 0 (Nat.toDigitsCore 10 fuel n ds) = decimal_value_from n ds := by
  intro fuel
  induction fuel with
  | zero => intro n ds h; omega
  | succ fuel ih =>
    intro n ds h
    have hd : digit_value (Nat.digitChar (n % 10)) = n % 10 :=
      digit_value_digitChar _ (Nat.mod_lt _ (by decide))
    rw [Nat.toDigitsCore]
    by_cases h0 : n / 10 = 0
    · simp only [h0, if_true]
      have hn : n % 10 = n := Nat.mod_eq_of_lt (by omega)
      rw [hn] at hd
      simp [decimal_value_from, hd, hn]
    · simp only [h0, if_false]
      rw [ih (n / 10) _ (by omega)]
      have : 10 * (n / 10) + n % 10 = n := Nat.div_add_mod n 10
      simp [decimal_value_from, hd, this]

/-- Two natural numbers with the same decimal rendering are equal. -/
theorem toString_nat_injective (a b : Nat) (h : toString a = toString b) : a = b := by
  have h1 : Nat.toDigits 10 a = Nat.toDigits 10 b := by
    have := congrArg String.data h
    simpa [toString, Nat.repr] using this
  have ha := decimal_value_toDigitsCore (a + 1) a [] (by omega)
  have hb := decimal_value_toDigitsCore (b + 1) b [] (by omega)
  simp only [Nat.toDigits] at h1
  rw [h1] at ha
  rw [ha] at hb
  simpa [decimal_value_from] using hb

/-- The identifiers `"bank account <a>"` and `"bank account <b>"` are equal only
for `a = b`. -/
theorem bank_account_name_injective (a b : Nat)
    (h : "bank account " ++ toString a = "bank account " ++ toString b) : a = b := by
  apply toString_nat_injective
  have := congrArg String.data h
  simp only [String.data_append] at this
  exact String.ext (List.append_cancel_left this)

/-! Sequences of calls: induction -/

/-- A property of the memory that every call of a class of calls on accounts of
the registry maintains holds after each call of a sequence of such calls; the
sequence does not fault and leaves the chain and the size of the heap alone. -/
theorem run_transfers_induction (chain : List Nat) (P : Memory → Prop)
    (C : transfer_call → Prop)
    (hstep : ∀ (m : Memory) (c : transfer_call) (m1 : Memory) (r : Int),
      m.bank_account_chain = chain → (∀ a ∈ chain, a < m.heap.length) → P m → C c →
      c.from_ ∈ chain → c.to_ ∈ chain →
      transfer_money m (some c.from_) (some c.to_) c.amount = some (m1, r) → P m1) :
    ∀ (calls : List transfer_call) (m : Memory), m.bank_account_chain = chain →
      (∀ a ∈ chain, a < m.heap.length) → P m →
      (∀ c ∈ calls, C c ∧ c.from_ ∈ chain ∧ c.to_ ∈ chain) →
      ∃ ms, run_transfers m calls = some ms ∧ ms.length = calls.length ∧
        ∀ m1 ∈ ms, P m1 ∧ m1.bank_account_chain = chain ∧
          m1.heap.length = m.heap.length := by
  intro calls
  induction calls with
  | nil => intro m _ _ _ _; exact ⟨[], rfl, rfl, by simp⟩
  | cons c cs ih =>
    intro m hchain hvalid hP hcalls
    obtain ⟨hC, hfrom, hto⟩ := hcalls c (by simp)
    obtain ⟨m1, r, hrun, hchain1, hlen1, -⟩ :=
      transfer_money_effect m c.from_ c.to_ c.amount (hvalid _ hfrom) (hvalid _ hto)
    have hP1 := hstep m c m1 r hchain hvalid hP hC hfrom hto hrun
    obtain ⟨ms, hms, hlen, hall⟩ := ih m1 (hchain1.trans hchain)
      (fun a ha => hlen1 ▸ hvalid a ha) hP1 (fun c1 hc1 => hcalls c1 (by simp [hc1]))
    refine ⟨m1 :: ms, by simp [run_transfers, hrun, hms], by simp [hlen], ?_⟩
    intro m2 hm2
    rcases List.mem_cons.mp hm2 with e | e
    · rw [e]; exact ⟨hP1, hchain1.trans hchain, hlen1⟩
    · obtain ⟨h1, h2, h3⟩ := hall m2 e
      exact ⟨h1, h2, h3.trans hlen1⟩

/-! The indices a worker draws -/

/-- The worker pass in terms of the two indices it draws. -/
theorem worker_iteration_eq_indices (rand : Nat → Int) (N : Int) (m : Memory) :
    worker_iteration rand N m =
      (random_account_index N (rand m.rand_calls)).bind fun i1 =>
        (random_account_index N (rand (m.rand_calls + 1))).bind fun i2 =>
          (get_bank_account { m with rand_calls := m.rand_calls + 3 }
              (format_identifier i1)).bind fun r1 =>
            (get_bank_account r1.1 (format_identifier i2)).bind fun r2 =>
              (transfer_money r2.1 r1.2 r2.2 (Int.tmod (rand (m.rand_calls + 2)) 500)).bind
                fun r3 =>
                  some { r3.1 with transaction_count := wrap32 (r3.1.transaction_count + 1) } := by
  unfold worker_iteration random_account_index
  cases c_mod (rand m.rand_calls) (N - 1) with
  | none => rfl
  | some k1 =>
    cases c_mod (rand (m.rand_calls + 1)) (N - 1) with
    | none => rfl
    | some k2 => rfl

/-- With three accounts the index drawn from a non-negative `rand()` result is
1 for an even result and 2 for an odd one. -/
theorem random_account_index_three (r : Nat) :
    random_account_index 3 (r : Int) = some ((r : Int) % 2 + 1) := by
  have h1 : Int.tmod (r : Int) 2 = (r : Int) % 2 :=
    Int.tmod_eq_emod (by omega) (by decide)
  have h2 : in_int_range ((r : Int) % 2 + 1) := by
    unfold in_int_range INT_MIN INT_MAX; omega
  simp only [random_account_index, c_mod]
  norm_num
  rw [h1, wrap32_of_in_int_range h2]

/-! Bounds from the sum -/

theorem le_sum_map_of_nonneg (l : List Nat) (g : Nat → Int) (hg : ∀ a ∈ l, 0 ≤ g a)
    (x : Nat) (hx : x ∈ l) : g x ≤ (l.map g).sum := by
  induction l with
  | nil => simp at hx
  | cons y ys ih =>
    have hsum : 0 ≤ (ys.map g).sum :=
      List.sum_nonneg (by
        intro v hv
        obtain ⟨a, ha, rfl⟩ := List.mem_map.mp hv
        exact hg a (List.mem_cons_of_mem _ ha))
    have hy := hg y (by simp)
    rw [List.map_cons, List.sum_cons]
    rcases List.mem_cons.mp hx with e | e
    · rw [e]; omega
    · have := ih (fun a ha => hg a (List.mem_cons_of_mem _ ha)) e
      omega

theorem sum_map_le_length_mul (l : List Nat) (g : Nat → Int) (B : Int)
    (hg : ∀ a ∈ l, g a ≤ B) : (l.map g).sum ≤ l.length * B := by
  induction l with
  | nil => simp
  | cons y ys ih =>
    have hy := hg y (by simp)
    have := ih (fun a ha => hg a (List.mem_cons_of_mem _ ha))
    rw [List.map_cons, List.sum_cons, List.length_cons]
    push_cast
    linarith

/-- One call with a non-negative amount that does not wrap around keeps the
balances of the registry non-negative. -/
theorem transfer_money_keeps_nonneg (m m1 : Memory) (c : transfer_call) (r : Int)
    (hvalid : ∀ a ∈ m.bank_account_chain, a < m.heap.length)
    (hfrom : c.from_ ∈ m.bank_account_chain) (hto : c.to_ ∈ m.bank_account_chain)
    (hnonneg : ∀ a ∈ m.bank_account_chain, 0 ≤ balance_at m a) (hamount : 0 ≤ c.amount)
    (hexact : transfer_exact m c)
    (hrun : transfer_money m (some c.from_) (some c.to_) c.amount = some (m1, r)) :
    ∀ a ∈ m.bank_account_chain, 0 ≤ balance_at m1 a := by
  obtain ⟨m2, r2, hrun2, -, -, -, -, -, -, hcases⟩ :=
    transfer_money_effect m c.from_ c.to_ c.amount (hvalid _ hfrom) (hvalid _ hto)
  rw [hrun] at hrun2
  obtain ⟨rfl, rfl⟩ := Prod.mk.inj (Option.some.inj hrun2)
  rcases hcases with ⟨-, -, hm⟩ | ⟨hge, -, hbal⟩
  · rw [hm]; exact hnonneg
  · rcases hexact with hlt | ⟨hsub, hadd⟩
    · omega
    · intro a ha
      have hbf := hnonneg _ hfrom
      have hbt := hnonneg _ hto
      have hba := hnonneg a ha
      rw [hbal a]
      by_cases htf : c.to_ = c.from_
      · rw [if_pos htf] at hadd
        rw [if_pos htf, wrap32_of_in_int_range hsub, wrap32_of_in_int_range hadd]
        split_ifs <;> omega
      · rw [if_neg htf] at hadd
        rw [if_neg htf, wrap32_of_in_int_range hsub, wrap32_of_in_int_range hadd]
        split_ifs <;> omega

/-- When every call of a class of calls is exact on every memory with a
maintained property, no call of a sequence of such calls wraps around. -/
theorem transfers_exact_of_invariant (chain : List Nat) (P : Memory → Prop)
    (C : transfer_call → Prop)
    (hstep : ∀ (m : Memory) (c : transfer_call) (m1 : Memory) (r : Int),
      m.bank_account_chain = chain → (∀ a ∈ chain, a < m.heap.length) → P m → C c →
      c.from_ ∈ chain → c.to_ ∈ chain →
      transfer_money m (some c.from_) (some c.to_) c.amount = some (m1, r) → P m1)
    (hexact : ∀ (m : Memory) (c : transfer_call),
      m.bank_account_chain = chain → (∀ a ∈ chain, a < m.heap.length) → P m → C c →
      c.from_ ∈ chain → c.to_ ∈ chain → transfer_exact m c) :
    ∀ (calls : List transfer_call) (m : Memory), m.bank_account_chain = chain →
      (∀ a ∈ chain, a < m.heap.length) → P m →
      (∀ c ∈ calls, C c ∧ c.from_ ∈ chain ∧ c.to_ ∈ chain) →
      transfers_exact m calls := by
  intro calls
  induction calls with
  | nil => intro m _ _ _ _; trivial
  | cons c cs ih =>
    intro m hchain hvalid hP hcalls
    obtain ⟨hC, hfrom, hto⟩ := hcalls c (by simp)
    obtain ⟨m1, r, hrun, hchain1, hlen1, -⟩ :=
      transfer_money_effect m c.from_ c.to_ c.amount (hvalid _ hfrom) (hvalid _ hto)
    have hP1 := hstep m c m1 r hchain hvalid hP hC hfrom hto hrun
    simp only [transfers_exact, hrun]
    exact ⟨hexact m c hchain hvalid hP hC hfrom hto,
      ih m1 (hchain1.trans hchain) (fun a ha => hlen1 ▸ hvalid a ha) hP1
        (fun c1 hc1 => hcalls c1 (by simp [hc1]))⟩

/-- On a registry with non-negative balances whose sum is at most 89997, a call
with `0 <= amount < 500` does not wrap around. -/
theorem benchmark_call_exact (m : Memory) (c : transfer_call)
    (hfrom : c.from_ ∈ m.bank_account_chain) (hto : c.to_ ∈ m.bank_account_chain)
    (hnonneg : ∀ a ∈ m.bank_account_chain, 0 ≤ balance_at m a)
    (htotal : total_balance m ≤ 89997) (h0 : 0 ≤ c.amount) (h500 : c.amount < 500) :
    transfer_exact m c := by
  have hf := le_sum_map_of_nonneg _ (balance_at m) hnonneg _ hfrom
  have ht := le_sum_map_of_nonneg _ (balance_at m) hnonneg _ hto
  have hbf := hnonneg _ hfrom
  have hbt := hnonneg _ hto
  unfold total_balance at htotal
  unfold transfer_exact in_int_range INT_MIN INT_MAX
  by_cases hlt : balance_at m c.from_ < c.amount
  · exact Or.inl hlt
  · right
    split_ifs <;> constructor <;> constructor <;> omega

/-! Lock events: the traced functions compute what the plain ones do -/

theorem add_bank_account_traced_snd (m : Memory) (account : Nat) :
    (add_bank_account_traced m account).2 = add_bank_account m account := by
  unfold add_bank_account_traced add_bank_account
  cases m.bank_account_chain <;> rfl

theorem list_accounts_loop_traced_snd (m : Memory) :
    ∀ (rest : List Nat) (a : Nat),
      (list_accounts_loop_traced m a rest).2 = list_accounts_loop m a rest := by
  intro rest
  induction rest with
  | nil =>
    intro a
    rw [list_accounts_loop_traced, list_accounts_loop]
    cases m.heap[a]? <;> rfl
  | cons b rest1 ih =>
    intro a
    rw [list_accounts_loop_traced, list_accounts_loop]
    cases m.heap[a]? with
    | none => rfl
    | some acc => simp only [ih b]

theorem list_accounts_traced_snd (m : Memory) :
    (list_accounts_traced m).2 = list_accounts m := by
  unfold list_accounts_traced list_accounts
  cases m.bank_account_chain with
  | nil => rfl
  | cons a rest => simp only [list_accounts_loop_traced_snd]

theorem get_bank_account_scan_traced_snd (m : Memory) (identifier : String) :
    ∀ (rest : List Nat) (a : Nat),
      (get_bank_account_scan_traced m identifier a rest).2
        = get_bank_account_scan m identifier a rest := by
  intro rest
  induction rest with
  | nil =>
    intro a
    rw [get_bank_account_scan_traced, get_bank_account_scan]
    cases read_identifier m a with
    | none => rfl
    | some s => by_cases h : s = identifier <;> simp [h]
  | cons b rest1 ih =>
    intro a
    rw [get_bank_account_scan_traced, get_bank_account_scan]
    cases read_identifier m a with
    | none => rfl
    | some s => by_cases h : s = identifier <;> simp [h, ih b]

theorem get_bank_account_traced_snd (m : Memory) (identifier : String) :
    (get_bank_account_traced m identifier).2 = get_bank_account m identifier := by
  unfold get_bank_account_traced get_bank_account
  cases m.bank_account_chain with
  | nil => rfl
  | cons a rest => simp only [get_bank_account_scan_traced_snd]

theorem transfer_money_traced_snd (m : Memory) (from_ to_ : Option Nat) (amount : Int) :
    (transfer_money_traced m from_ to_ amount).2 = transfer_money m from_ to_ amount := by
  unfold transfer_money_traced transfer_money
  cases read_balance m from_ with
  | none => rfl
  | some b =>
    by_cases hlt : b < amount
    · simp [hlt]
    · simp only [hlt, if_false, Option.some_bind]
      cases write_balance m from_ (wrap32 (b - amount)) with
      | none => rfl
      | some m1 =>
        simp only [Option.some_bind]
        cases read_balance m1 to_ with
        | none => rfl
        | some b2 =>
          simp only [Option.some_bind]
          cases write_balance m1 to_ (wrap32 (b2 + amount)) <;> rfl

theorem worker_iteration_traced_snd (rand : Nat → Int) (N : Int) (m : Memory) :
    (worker_iteration_traced rand N m).2 = worker_iteration rand N m := by
  unfold worker_iteration_traced worker_iteration
  cases c_mod (rand m.rand_calls) (N - 1) with
  | none => rfl
  | some k1 =>
    cases c_mod (rand (m.rand_calls + 1)) (N - 1) with
    | none => rfl
    | some k2 =>
      simp only [Option.some_bind, get_bank_account_traced_snd, transfer_money_traced_snd]
      cases get_bank_account { m with rand_calls := m.rand_calls + 3 }
          (format_identifier (wrap32 (k1 + 1))) with
      | none => rfl
      | some r1 =>
        simp only [Option.some_bind]
        cases get_bank_account r1.1 (format_identifier (wrap32 (k2 + 1))) with
        | none => rfl
        | some r2 =>
          simp only [Option.some_bind]
          cases transfer_money r2.1 r1.2 r2.2 (Int.tmod (rand (m.rand_calls + 2)) 500) <;> rfl

/-! Lock events: the discipline -/

theorem lock_discipline_append (xs ys : List lock_event) :
    ∀ held : Option Nat, lock_discipline held (xs ++ ys)
      = (lock_discipline held xs).bind fun h1 => lock_discipline h1 ys := by
  induction xs with
  | nil => intro held; simp [lock_discipline]
  | cons e es ih =>
    intro held
    cases held with
    | none =>
      cases e with
      | lock i =>
        by_cases hi : i < 3
        · simp [lock_discipline, hi, ih]
        · simp [lock_discipline, hi]
      | unlock i => simp [lock_discipline]
    | some j =>
      cases e with
      | lock i => simp [lock_discipline]
      | unlock i =>
        by_cases hi : i = j
        · simp [lock_discipline, hi, ih]
        · simp [lock_discipline, hi]

theorem list_accounts_loop_traced_discipline (m : Memory) :
    ∀ (rest : List Nat) (a : Nat),
      lock_discipline (some BANK_MUTEX_INDEX) (list_accounts_loop_traced m a rest).1
        = some (if (list_accounts_loop_traced m a rest).2.isSome then none
            else some BANK_MUTEX_INDEX) := by
  intro rest
  induction rest with
  | nil =>
    intro a
    rw [list_accounts_loop_traced]
    cases m.heap[a]? <;> simp [lock_discipline]
  | cons b rest1 ih =>
    intro a
    rw [list_accounts_loop_traced]
    cases m.heap[a]? with
    | none => simp [lock_discipline]
    | some acc => simp only [ih b, Option.isSome_map']

theorem get_bank_account_scan_traced_discipline (m : Memory) (identifier : String) :
    ∀ (rest : List Nat) (a : Nat),
      lock_discipline (some BANK_MUTEX_INDEX)
          (get_bank_account_scan_traced m identifier a rest).1
        = some (if (get_bank_account_scan_traced m identifier a rest).2.isSome then none
            else some BANK_MUTEX_INDEX) := by
  intro rest
  induction rest with
  | nil =>
    intro a
    rw [get_bank_account_scan_traced]
    cases read_identifier m a with
    | none => simp [lock_discipline]
    | some s => by_cases h : s = identifier <;> simp [h, lock_discipline]
  | cons b rest1 ih =>
    intro a
    rw [get_bank_account_scan_traced]
    cases read_identifier m a with
    | none => simp [lock_discipline]
    | some s => by_cases h : s = identifier <;> simp [h, lock_discipline, ih b]

theorem add_bank_account_traced_discipline (m : Memory) (account : Nat) :
    lock_discipline none (add_bank_account_traced m account).1 = some none := by
  unfold add_bank_account_traced
  cases m.bank_account_chain <;> rfl

theorem list_accounts_traced_discipline (m : Memory) :
    one_mutex_discipline BANK_MUTEX_INDEX (list_accounts_traced m).1
      (list_accounts_traced m).2.isSome := by
  unfold one_mutex_discipline list_accounts_traced
  cases m.bank_account_chain with
  | nil => rfl
  | cons a rest =>
    simp only [lock_discipline, BANK_MUTEX_INDEX, Nat.ofNat_pos, if_true, Option.isSome_map']
    exact list_accounts_loop_traced_discipline m rest a

theorem get_bank_account_traced_discipline (m : Memory) (identifier : String) :
    one_mutex_discipline BANK_MUTEX_INDEX (get_bank_account_traced m identifier).1
      (get_bank_account_traced m identifier).2.isSome := by
  unfold one_mutex_discipline get_bank_account_traced
  cases m.bank_account_chain with
  | nil => rfl
  | cons a rest =>
    simp only [lock_discipline, BANK_MUTEX_INDEX, Nat.ofNat_pos, if_true, Option.isSome_map']
    exact get_bank_account_scan_traced_discipline m identifier rest a

theorem transfer_money_traced_discipline (m : Memory) (from_ to_ : Option Nat)
    (amount : Int) :
    one_mutex_discipline BANK_MUTEX_INDEX (transfer_money_traced m from_ to_ amount).1
      (transfer_money_traced m from_ to_ amount).2.isSome := by
  unfold one_mutex_discipline transfer_money_traced
  cases read_balance m from_ with
  | none => rfl
  | some b =>
    by_cases hlt : b < amount
    · simp only [hlt, if_true]; rfl
    · simp only [hlt, if_false]
      cases write_balance m from_ (wrap32 (b - amount)) with
      | none => rfl
      | some m1 =>
        dsimp only
        cases read_balance m1 to_ with
        | none => rfl
        | some b2 =>
          dsimp only
          cases write_balance m1 to_ (wrap32 (b2 + amount)) <;> rfl

theorem worker_iteration_traced_discipline (rand : Nat → Int) (N : Int) (m : Memory) :
    ∃ held, lock_discipline none (worker_iteration_traced rand N m).1 = some held ∧
      ((worker_iteration_traced rand N m).2.isSome → held = none) := by
  have hdrawn : lock_discipline none
      [lock_event.lock RANDOM_MUTEX_INDEX, lock_event.unlock RANDOM_MUTEX_INDEX]
        = some none := rfl
  have hcount : lock_discipline none
      [lock_event.lock TRANSACTION_COUNT_MUTEX_INDEX,
        lock_event.unlock TRANSACTION_COUNT_MUTEX_INDEX] = some none := rfl
  unfold worker_iteration_traced
  cases c_mod (rand m.rand_calls) (N - 1) with
  | none => exact ⟨some RANDOM_MUTEX_INDEX, rfl, fun h => by simp at h⟩
  | some k1 =>
    cases c_mod (rand (m.rand_calls + 1)) (N - 1) with
    | none => exact ⟨some RANDOM_MUTEX_INDEX, rfl, fun h => by simp at h⟩
    | some k2 =>
      dsimp only
      have d1 := get_bank_account_traced_discipline { m with rand_calls := m.rand_calls + 3 }
        (format_identifier (wrap32 (k1 + 1)))
      unfold one_mutex_discipline at d1
      cases h1 : (get_bank_account_traced { m with rand_calls := m.rand_calls + 3 }
          (format_identifier (wrap32 (k1 + 1)))).2 with
      | none =>
        rw [h1] at d1
        refine ⟨some BANK_MUTEX_INDEX, ?_, fun h => by simp at h⟩
        rw [lock_discipline_append, hdrawn, Option.some_bind, d1]
        rfl
      | some r1 =>
        rw [h1] at d1
        dsimp only
        have d2 := get_bank_account_traced_discipline r1.1 (format_identifier (wrap32 (k2 + 1)))
        unfold one_mutex_discipline at d2
        cases h2 : (get_bank_account_traced r1.1 (format_identifier (wrap32 (k2 + 1)))).2 with
        | none =>
          rw [h2] at d2
          refine ⟨some BANK_MUTEX_INDEX, ?_, fun h => by simp at h⟩
          rw [lock_discipline_append, lock_discipline_append, hdrawn, Option.some_bind, d1]
          simp only [Option.isSome_some, if_true, Option.some_bind]
          rw [d2]
          rfl
        | some r2 =>
          rw [h2] at d2
          dsimp only
          have d3 := transfer_money_traced_discipline r2.1 r1.2 r2.2
            (Int.tmod (rand (m.rand_calls + 2)) 500)
          unfold one_mutex_discipline at d3
          cases h3 : (transfer_money_traced r2.1 r1.2 r2.2
              (Int.tmod (rand (m.rand_calls + 2)) 500)).2 with
          | none =>
            rw [h3] at d3
            refine ⟨some BANK_MUTEX_INDEX, ?_, fun h => by simp at h⟩
            rw [lock_discipline_append, lock_discipline_append, lock_discipline_append, hdrawn,
              Option.some_bind, d1]
            simp only [Option.isSome_some, if_true, Option.some_bind]
            rw [d2]
            simp only [Option.isSome_some, if_true, Option.some_bind]
            rw [d3]
            rfl
          | some r3 =>
            rw [h3] at d3
            refine ⟨none, ?_, fun _ => rfl⟩
            rw [lock_discipline_append, lock_discipline_append, lock_discipline_append,
              lock_discipline_append, hdrawn, Option.some_bind, d1]
            simp only [Option.isSome_some, if_true, Option.some_bind]
            rw [d2]
            simp only [Option.isSome_some, if_true, Option.some_bind]
            rw [d3]
            simp only [Option.isSome_some, if_true, Option.some_bind]
            exact hcount

/-! Several workers: the steps of one pass -/

/-- The five critical sections of one pass, run one after the other without any
other worker in between, are the sequential pass `worker_iteration`, and leave
the worker at its final `if` with the value of `condition`. -/
theorem worker_steps_eq_iteration (rand : Nat → Int) (N Q : Int) (m : Memory) :
    ((worker_step rand N Q m worker_pc.start).bind fun r1 =>
      (worker_step rand N Q r1.1 r1.2).bind fun r2 =>
        (worker_step rand N Q r2.1 r2.2).bind fun r3 =>
          (worker_step rand N Q r3.1 r3.2).bind fun r4 =>
            worker_step rand N Q r4.1 r4.2)
      = (worker_iteration rand N m).map fun m1 =>
          (m1, worker_pc.branch (decide (m1.transaction_count ≥ Q))) := by
  unfold worker_iteration
  simp only [worker_step]
  cases c_mod (rand m.rand_calls) (N - 1) with
  | none => rfl
  | some k1 =>
    cases c_mod (rand (m.rand_calls + 1)) (N - 1) with
    | none => rfl
    | some k2 =>
      simp only [Option.some_bind, worker_step]
      cases get_bank_account { m with rand_calls := m.rand_calls + 3 }
          (format_identifier (wrap32 (k1 + 1))) with
      | none => rfl
      | some r1 =>
        simp only [Option.map_some', Option.some_bind, worker_step]
        cases get_bank_account r1.1 (format_identifier (wrap32 (k2 + 1))) with
        | none => rfl
        | some r2 =>
          simp only [Option.map_some', Option.some_bind, worker_step]
          cases transfer_money r2.1 r1.2 r2.2 (Int.tmod (rand (m.rand_calls + 2)) 500) with
          | none => rfl
          | some r3 => rfl

/-! Several workers: one step -/

theorem same_registry_refl (m : Memory) : same_registry m m := ⟨rfl, rfl, fun _ => rfl⟩

theorem worker_ready_of_same_registry (N : Int) (m m1 : Memory) (h : same_registry m m1)
    (hready : worker_ready N m) : worker_ready N m1 := by
  obtain ⟨hchain, hlen, hid⟩ := h
  obtain ⟨hne, hvalid, hnames⟩ := hready
  refine ⟨by rw [hchain]; exact hne, ?_, ?_⟩
  · intro a ha
    rw [hchain] at ha
    rw [hlen]; exact hvalid a ha
  · intro k hk1 hk2
    obtain ⟨a, ha, hida⟩ := hnames k hk1 hk2
    exact ⟨a, by rw [hchain]; exact ha, by rw [hid a]; exact hida⟩

theorem pc_ok_of_same_registry (N : Int) (m m1 : Memory) (h : same_registry m m1)
    (pc : worker_pc) (hok : pc_ok N m pc) : pc_ok N m1 pc := by
  obtain ⟨-, hlen, -⟩ := h
  cases pc <;> simp only [pc_ok, hlen] at hok ⊢ <;> exact hok

/-- The next critical section of a worker on a reliable registry does not fault,
leaves the registry reliable and the worker's local variables sound, and acts
on the counter and the flag as `step_counts` says. -/
theorem worker_step_spec (rand : Nat → Int) (hrand : ∀ k, 0 ≤ rand k) (N Q : Int)
    (hN : 2 ≤ N) (hNint : N ≤ INT_MAX) (m : Memory) (hready : worker_ready N m)
    (pc : worker_pc) (hok : pc_ok N m pc) :
    ∃ m1 pc1, worker_step rand N Q m pc = some (m1, pc1) ∧ same_registry m m1 ∧
      pc_ok N m1 pc1 ∧ step_counts Q m pc m1 pc1 := by
  have hne : N - 1 ≠ 0 := by omega
  have hpos : (0 : Int) < N - 1 := by omega
  have index_ok : ∀ r : Int, 0 ≤ r →
      1 ≤ wrap32 (Int.tmod r (N - 1) + 1) ∧ wrap32 (Int.tmod r (N - 1) + 1) ≤ N - 1 := by
    intro r hr
    have h1 : 0 ≤ Int.tmod r (N - 1) := Int.tmod_nonneg _ hr
    have h2 : Int.tmod r (N - 1) < N - 1 := Int.tmod_lt_of_pos _ hpos
    have h3 : in_int_range (Int.tmod r (N - 1) + 1) := by
      unfold in_int_range INT_MIN; unfold INT_MAX at *; constructor <;> omega
    rw [wrap32_of_in_int_range h3]
    omega
  cases pc with
  | start =>
    refine ⟨{ m with rand_calls := m.rand_calls + 3 },
      worker_pc.lookup1 (format_identifier (wrap32 (Int.tmod (rand m.rand_calls) (N - 1) + 1)))
        (format_identifier (wrap32 (Int.tmod (rand (m.rand_calls + 1)) (N - 1) + 1)))
        (Int.tmod (rand (m.rand_calls + 2)) 500),
      ?_, ⟨rfl, rfl, fun _ => rfl⟩, ?_, ?_⟩
    · simp only [worker_step, c_mod, if_neg hne, Option.some_bind]
    · exact ⟨⟨_, (index_ok _ (hrand _)).1, (index_ok _ (hrand _)).2, rfl⟩,
        ⟨_, (index_ok _ (hrand _)).1, (index_ok _ (hrand _)).2, rfl⟩⟩
    · exact ⟨rfl, rfl, rfl, rfl, rfl⟩
  | lookup1 id1 id2 amount =>
    obtain ⟨⟨k1, hk1a, hk1b, rfl⟩, hid2⟩ := hok
    obtain ⟨p, hp, hpv⟩ := get_bank_account_of_worker_ready N m hready k1 hk1a hk1b
    refine ⟨m, worker_pc.lookup2 id2 amount (some p),
      by simp only [worker_step, hp, Option.map_some'], same_registry_refl m, ?_, ?_⟩
    · exact ⟨hid2, p, rfl, hpv⟩
    · exact ⟨rfl, rfl, rfl, rfl, rfl⟩
  | lookup2 id2 amount account1 =>
    obtain ⟨⟨k2, hk2a, hk2b, rfl⟩, hacc1⟩ := hok
    obtain ⟨p, hp, hpv⟩ := get_bank_account_of_worker_ready N m hready k2 hk2a hk2b
    refine ⟨m, worker_pc.transfer account1 (some p) amount,
      by simp only [worker_step, hp, Option.map_some'], same_registry_refl m, ?_, ?_⟩
    · exact ⟨hacc1, p, rfl, hpv⟩
    · exact ⟨rfl, rfl, rfl, rfl, rfl⟩
  | transfer account1 account2 amount =>
    obtain ⟨⟨p1, rfl, hp1⟩, ⟨p2, rfl, hp2⟩⟩ := hok
    obtain ⟨m1, r, hrun, hchain, hlen, htc, hpr, -, hid, -⟩ :=
      transfer_money_effect m p1 p2 amount hp1 hp2
    refine ⟨m1, worker_pc.count, by simp only [worker_step, hrun, Option.map_some'],
      ⟨hchain, hlen, hid⟩, trivial, ?_⟩
    exact ⟨htc, hpr, rfl, rfl, rfl⟩
  | count =>
    exact ⟨_, _, rfl, ⟨rfl, rfl, fun _ => rfl⟩, trivial, rfl, rfl, rfl⟩
  | branch condition =>
    cases condition with
    | false => exact ⟨m, worker_pc.start, rfl, same_registry_refl m, trivial, rfl, rfl, rfl⟩
    | true =>
      exact ⟨{ m with program_running := 0 }, worker_pc.done, rfl, ⟨rfl, rfl, fun _ => rfl⟩,
        trivial, rfl, rfl, rfl⟩
  | done => exact ⟨m, worker_pc.done, rfl, same_registry_refl m, trivial, rfl, rfl, rfl⟩

/-! Several workers: sums over the workers -/

theorem sum_map_set (f : worker_pc → Nat) :
    ∀ (l : List worker_pc) (w : Nat) (old new : worker_pc), l[w]? = some old →
      ((l.set w new).map f).sum + f old = (l.map f).sum + f new := by
  intro l
  induction l with
  | nil => intro w old new h; simp at h
  | cons x xs ih =>
    intro w old new h
    cases w with
    | zero =>
      simp only [List.getElem?_cons_zero, Option.some.injEq] at h
      subst h
      simp only [List.set_cons_zero, List.map_cons, List.sum_cons]
      omega
    | succ v =>
      simp only [List.getElem?_cons_succ] at h
      have := ih v old new h
      simp only [List.set_cons_succ, List.map_cons, List.sum_cons]
      omega

theorem sum_map_le_length (f : worker_pc → Nat) (hf : ∀ pc, f pc ≤ 1) :
    ∀ l : List worker_pc, (l.map f).sum ≤ l.length := by
  intro l
  induction l with
  | nil => simp
  | cons x xs ih =>
    have := hf x
    simp only [List.map_cons, List.sum_cons, List.length_cons]
    omega

theorem observed_quota_le_one (pc : worker_pc) : observed_quota pc ≤ 1 := by
  cases pc with
  | branch condition => cases condition <;> simp [observed_quota]
  | _ => simp [observed_quota]

theorem wrote_flag_le_observed (pc : worker_pc) : wrote_flag pc ≤ observed_quota pc := by
  cases pc with
  | branch condition => cases condition <;> simp [observed_quota, wrote_flag]
  | _ => simp [observed_quota, wrote_flag]

theorem sum_wrote_le_sum_observed (l : List worker_pc) :
    (l.map wrote_flag).sum ≤ (l.map observed_quota).sum := by
  induction l with
  | nil => simp
  | cons x xs ih =>
    have := wrote_flag_le_observed x
    simp only [List.map_cons, List.sum_cons]
    omega

/-! Several workers: the invariant -/

/-- One scheduled step keeps the invariant, and it uses up one unit of the
potential when the scheduled worker had not returned. -/
theorem quota_invariant_step (rand : Nat → Int) (hrand : ∀ k, 0 ≤ rand k) (N Q : Int)
    (W : Nat) (hN : 2 ≤ N) (hNint : N ≤ INT_MAX) (hint : Q + W - 1 ≤ INT_MAX)
    (c : Config) (h : quota_invariant N Q W c) (w : Nat) :
    quota_invariant N Q W (step rand N Q w c) ∧
      potential Q (step rand N Q w c)
          + (match c.workers[w]? with
              | none => 0
              | some pc => if c.faulted ∨ pc = worker_pc.done then 0 else 1)
        = potential Q c := by
  obtain ⟨hfaulted, hlen, hready, hpcs, htc0, hobs, hflag⟩ := h
  cases hw : c.workers[w]? with
  | none =>
    have hstep : step rand N Q w c = c := by simp [step, hfaulted, hw]
    rw [hstep]
    exact ⟨⟨hfaulted, hlen, hready, hpcs, htc0, hobs, hflag⟩, rfl⟩
  | some pc =>
    obtain ⟨m1, pc1, hrun, hsame, hok1, hcounts⟩ :=
      worker_step_spec rand hrand N Q hN hNint c.memory hready pc (hpcs pc (List.getElem?_mem hw))
    have hstep : step rand N Q w c
        = { memory := m1, workers := c.workers.set w pc1, faulted := false } := by
      simp [step, hfaulted, hw, hrun]
    rw [hstep]
    have hO := sum_map_set observed_quota c.workers w pc pc1 hw
    have hWr := sum_map_set wrote_flag c.workers w pc pc1 hw
    have hS := sum_map_set steps_left c.workers w pc pc1 hw
    have hbound : ((c.workers.set w pc1).map observed_quota).sum ≤ W := by
      have := sum_map_le_length observed_quota observed_quota_le_one (c.workers.set w pc1)
      rw [List.length_set, hlen] at this
      exact this
    have hbound0 : ((c.workers.set w worker_pc.done).map observed_quota).sum ≤ W := by
      have := sum_map_le_length observed_quota observed_quota_le_one
        (c.workers.set w worker_pc.done)
      rw [List.length_set, hlen] at this
      exact this
    have hO0 := sum_map_set observed_quota c.workers w pc worker_pc.done hw
    have hregistry : c.faulted = false → (c.workers.set w pc1).length = W ∧
        worker_ready N m1 ∧ ∀ x ∈ c.workers.set w pc1, pc_ok N m1 x := by
      intro _
      refine ⟨by rw [List.length_set, hlen], worker_ready_of_same_registry N _ _ hsame hready, ?_⟩
      intro x hx
      rcases List.mem_or_eq_of_mem_set hx with hmem | heq
      · exact pc_ok_of_same_registry N _ _ hsame x (hpcs x hmem)
      · rw [heq]; exact hok1
    obtain ⟨hlen1, hready1, hpcs1⟩ := hregistry hfaulted
    simp only [hfaulted, Bool.false_eq_true, false_or]
    unfold potential
    cases pc with
    | count =>
      obtain ⟨htc1, hpr1, hpc1⟩ := hcounts
      simp only [observed_quota, wrote_flag, steps_left] at hO hWr hS hO0
      have hrange : in_int_range (c.memory.transaction_count + 1) := by
        unfold in_int_range INT_MIN; unfold INT_MAX at *
        constructor <;> omega
      rw [wrap32_of_in_int_range hrange] at htc1 hpc1
      by_cases hq : c.memory.transaction_count + 1 ≥ Q
      · simp only [hq, decide_True] at hpc1
        subst hpc1
        simp only [observed_quota, wrote_flag, steps_left] at hO hWr hS
        refine ⟨⟨rfl, hlen1, hready1, hpcs1, ?_, ?_, ?_⟩, ?_⟩
        · dsimp only; rw [htc1]; omega
        · dsimp only; rw [htc1]; omega
        · dsimp only; rw [hpr1]
          rcases hflag with ⟨h1, h2⟩ | ⟨h1, h2⟩
          · left; exact ⟨h1, by omega⟩
          · right; exact ⟨h1, by omega⟩
        · dsimp only; rw [htc1, if_neg (by simp)]; omega
      · simp only [hq, decide_False] at hpc1
        subst hpc1
        simp only [observed_quota, wrote_flag, steps_left] at hO hWr hS
        refine ⟨⟨rfl, hlen1, hready1, hpcs1, ?_, ?_, ?_⟩, ?_⟩
        · dsimp only; rw [htc1]; omega
        · dsimp only; rw [htc1]; omega
        · dsimp only; rw [hpr1]
          rcases hflag with ⟨h1, h2⟩ | ⟨h1, h2⟩
          · left; exact ⟨h1, by omega⟩
          · right; exact ⟨h1, by omega⟩
        · dsimp only; rw [htc1, if_neg (by simp)]; omega
    | branch condition =>
      cases condition with
      | true =>
        obtain ⟨htc1, hpr1, hpc1⟩ := hcounts
        subst hpc1
        simp only [observed_quota, wrote_flag, steps_left] at hO hWr hS
        refine ⟨⟨rfl, hlen1, hready1, hpcs1, ?_, ?_, ?_⟩, ?_⟩
        · dsimp only; rw [htc1]; exact htc0
        · dsimp only; rw [htc1]; omega
        · dsimp only; right; exact ⟨hpr1, by omega⟩
        · dsimp only; rw [htc1, if_neg (by simp)]; omega
      | false =>
        obtain ⟨htc1, hpr1, hpc1⟩ := hcounts
        subst hpc1
        simp only [observed_quota, wrote_flag, steps_left] at hO hWr hS
        refine ⟨⟨rfl, hlen1, hready1, hpcs1, ?_, ?_, ?_⟩, ?_⟩
        · dsimp only; rw [htc1]; exact htc0
        · dsimp only; rw [htc1]; omega
        · dsimp only; rw [hpr1]
          rcases hflag with ⟨h1, h2⟩ | ⟨h1, h2⟩
          · left; exact ⟨h1, by omega⟩
          · right; exact ⟨h1, by omega⟩
        · dsimp only; rw [htc1, if_neg (by simp)]; omega
    | done =>
      obtain ⟨htc1, hpr1, hpc1⟩ := hcounts
      subst hpc1
      simp only [observed_quota, wrote_flag, steps_left] at hO hWr hS
      refine ⟨⟨rfl, hlen1, hready1, hpcs1, ?_, ?_, ?_⟩, ?_⟩
      · dsimp only; rw [htc1]; exact htc0
      · dsimp only; rw [htc1]; omega
      · dsimp only; rw [hpr1]
        rcases hflag with ⟨h1, h2⟩ | ⟨h1, h2⟩
        · left; exact ⟨h1, by omega⟩
        · right; exact ⟨h1, by omega⟩
      · dsimp only; rw [htc1, if_pos rfl]; omega
    | start =>
      obtain ⟨htc1, hpr1, hs1, ho1, hw1⟩ := hcounts
      have e1 : observed_quota worker_pc.start = 0 := rfl
      have e2 : wrote_flag worker_pc.start = 0 := rfl
      refine ⟨⟨rfl, hlen1, hready1, hpcs1, ?_, ?_, ?_⟩, ?_⟩
      · dsimp only; rw [htc1]; exact htc0
      · dsimp only; rw [htc1]; omega
      · dsimp only; rw [hpr1]
        rcases hflag with ⟨h1, h2⟩ | ⟨h1, h2⟩
        · left; exact ⟨h1, by omega⟩
        · right; exact ⟨h1, by omega⟩
      · dsimp only; rw [htc1, if_neg (by simp)]; omega
    | lookup1 id1 id2 amount =>
      obtain ⟨htc1, hpr1, hs1, ho1, hw1⟩ := hcounts
      have e1 : observed_quota (worker_pc.lookup1 id1 id2 amount) = 0 := rfl
      have e2 : wrote_flag (worker_pc.lookup1 id1 id2 amount) = 0 := rfl
      refine ⟨⟨rfl, hlen1, hready1, hpcs1, ?_, ?_, ?_⟩, ?_⟩
      · dsimp only; rw [htc1]; exact htc0
      · dsimp only; rw [htc1]; omega
      · dsimp only; rw [hpr1]
        rcases hflag with ⟨h1, h2⟩ | ⟨h1, h2⟩
        · left; exact ⟨h1, by omega⟩
        · right; exact ⟨h1, by omega⟩
      · dsimp only; rw [htc1, if_neg (by simp)]; omega
    | lookup2 id2 amount account1 =>
      obtain ⟨htc1, hpr1, hs1, ho1, hw1⟩ := hcounts
      have e1 : observed_quota (worker_pc.lookup2 id2 amount account1) = 0 := rfl
      have e2 : wrote_flag (worker_pc.lookup2 id2 amount account1) = 0 := rfl
      refine ⟨⟨rfl, hlen1, hready1, hpcs1, ?_, ?_, ?_⟩, ?_⟩
      · dsimp only; rw [htc1]; exact htc0
      · dsimp only; rw [htc1]; omega
      · dsimp only; rw [hpr1]
        rcases hflag with ⟨h1, h2⟩ | ⟨h1, h2⟩
        · left; exact ⟨h1, by omega⟩
        · right; exact ⟨h1, by omega⟩
      · dsimp only; rw [htc1, if_neg (by simp)]; omega
    | transfer account1 account2 amount =>
      obtain ⟨htc1, hpr1, hs1, ho1, hw1⟩ := hcounts
      have e1 : observed_quota (worker_pc.transfer account1 account2 amount) = 0 := rfl
      have e2 : wrote_flag (worker_pc.transfer account1 account2 amount) = 0 := rfl
      refine ⟨⟨rfl, hlen1, hready1, hpcs1, ?_, ?_, ?_⟩, ?_⟩
      · dsimp only; rw [htc1]; exact htc0
      · dsimp only; rw [htc1]; omega
      · dsimp only; rw [hpr1]
        rcases hflag with ⟨h1, h2⟩ | ⟨h1, h2⟩
        · left; exact ⟨h1, by omega⟩
        · right; exact ⟨h1, by omega⟩
      · dsimp only; rw [htc1, if_neg (by simp)]; omega

/-- Every interleaving keeps the invariant, and the potential it has used up is
the number of its effective steps. -/
theorem quota_invariant_run (rand : Nat → Int) (hrand : ∀ k, 0 ≤ rand k) (N Q : Int)
    (W : Nat) (hN : 2 ≤ N) (hNint : N ≤ INT_MAX) (hint : Q + W - 1 ≤ INT_MAX) :
    ∀ (schedule : List Nat) (c : Config), quota_invariant N Q W c →
      quota_invariant N Q W (run_schedule rand N Q schedule c) ∧
        potential Q (run_schedule rand N Q schedule c)
            + effective_steps rand N Q schedule c
          = potential Q c := by
  intro schedule
  induction schedule with
  | nil => intro c h; exact ⟨h, rfl⟩
  | cons w rest ih =>
    intro c h
    obtain ⟨h1, hp1⟩ := quota_invariant_step rand hrand N Q W hN hNint hint c h w
    obtain ⟨h2, hp2⟩ := ih _ h1
    refine ⟨h2, ?_⟩
    simp only [run_schedule, effective_steps]
    omega

theorem quota_invariant_initial (N Q : Int) (W : Nat) (hQ : 1 ≤ Q) (m : Memory)
    (hready : worker_ready N m) (hcount : m.transaction_count = 0)
    (hrunning : m.program_running = 1) :
    quota_invariant N Q W (initial_config m W) ∧
      potential Q (initial_config m W) = 6 * W + 6 * (Q - 1).toNat := by
  refine ⟨⟨rfl, by simp [initial_config], hready, ?_, by simp [initial_config, hcount], ?_, ?_⟩,
    ?_⟩
  · intro pc hpc
    simp only [initial_config, List.mem_replicate] at hpc
    rw [hpc.2]; trivial
  · simp only [initial_config, List.map_replicate, List.sum_replicate, observed_quota, hcount]
    simp
    omega
  · left
    simp [initial_config, hrunning, wrote_flag]
  · simp only [potential, initial_config, List.map_replicate, List.sum_replicate, steps_left,
      hcount]
    simp
    ring

theorem sum_map_of_all_done (f : worker_pc → Nat) (l : List worker_pc)
    (h : ∀ pc ∈ l, pc = worker_pc.done) : (l.map f).sum = l.length * f worker_pc.done := by
  induction l with
  | nil => simp
  | cons x xs ih =>
    have hx := h x (by simp)
    have := ih (fun pc hpc => h pc (List.mem_cons_of_mem _ hpc))
    simp only [List.map_cons, List.sum_cons, List.length_cons, hx, this]
    ring

theorem all_done_of_steps_left_zero (l : List worker_pc)
    (h : (l.map steps_left).sum = 0) : ∀ pc ∈ l, pc = worker_pc.done := by
  induction l with
  | nil => intro pc hpc; simp at hpc
  | cons x xs ih =>
    simp only [List.map_cons, List.sum_cons] at h
    have hx : steps_left x = 0 := by omega
    have hxs : (xs.map steps_left).sum = 0 := by omega
    intro pc hpc
    rcases List.mem_cons.mp hpc with e | e
    · rw [e]
      cases x with
      | branch condition => cases condition <;> simp [steps_left] at hx
      | done => rfl
      | _ => simp [steps_left] at hx
    · exact ih hxs pc e

/-! C1: an accepted transfer -/

/-- C1 (counterexample): on the registry with balances 1, 2147483647, 0 the call
`transfer_money(acct1, acct2, 1)` returns 1, and the new balance of `acct2` is
-2147483648, not the old one plus 1. -/
theorem transfer_money_credit_wraps :
    transfer_money (scenario_memory 1 2147483647 0) (some 0) (some 1) 1
        = some (scenario_memory 0 (-2147483648) 0, 1) ∧
      balance_at (scenario_memory 0 (-2147483648) 0) 1
        ≠ balance_at (scenario_memory 1 2147483647 0) 1 + 1 := by
  decide

/-- C1 (amended): for two distinct allocated accounts `f` and `t` (so for any two
distinct accounts of a registry) and every amount, `transfer_money` returns, it
returns 1 exactly when `from.balance >= amount`, and when it returns 1 and the
exact difference and the exact sum are both representable in an `int`, the new
`from.balance` is the old one minus `amount` and the new `to.balance` is the old
one plus `amount`. -/
theorem transfer_money_accepts_iff_funds (m : Memory) (f t : Nat) (amount : Int)
    (hf : f < m.heap.length) (ht : t < m.heap.length) (hft : f ≠ t) :
    ∃ m1 r, transfer_money m (some f) (some t) amount = some (m1, r) ∧
      (r = 1 ↔ amount ≤ balance_at m f) ∧
      (r = 1 → in_int_range (balance_at m f - amount) →
        in_int_range (balance_at m t + amount) →
          balance_at m1 f = balance_at m f - amount ∧
            balance_at m1 t = balance_at m t + amount) := by
  obtain ⟨fa, hfa⟩ := exists_get_of_lt hf
  obtain ⟨ta, hta⟩ := exists_get_of_lt ht
  rw [balance_at_of_get hfa, balance_at_of_get hta]
  by_cases hlt : fa.balance < amount
  · refine ⟨m, 0, transfer_money_refused _ hfa hlt, ?_, ?_⟩
    · constructor
      · intro h; exact absurd h (by decide)
      · intro h; omega
    · intro h; exact absurd h (by decide)
  · have ht1 : (m.heap.set f (set_balance fa (wrap32 (fa.balance - amount))))[t]? = some ta := by
      rw [List.getElem?_set_ne hft]; exact hta
    refine ⟨_, 1, transfer_money_accepted hfa hlt ht1, ?_, ?_⟩
    · constructor
      · intro _; omega
      · intro _; rfl
    · intro _ h1 h2
      have hne : t ≠ f := fun h => hft h.symm
      have hf1 : f < (m.heap.set f (set_balance fa (wrap32 (fa.balance - amount)))).length := by
        simpa using hf
      constructor
      · simp [balance_at, List.getElem?_set_ne hne, List.getElem?_set_self hf, set_balance,
          wrap32_of_in_int_range h1]
      · simp [balance_at, List.getElem?_set_self, ht, set_balance, wrap32_of_in_int_range h2]

/-- C1 (witness): balances 10000, 10000, 10000 and `transfer(acct1, acct2, 5000)`. -/
theorem transfer_money_accepts_iff_funds_witness :
    (0 < (scenario_memory 10000 10000 10000).heap.length ∧
      1 < (scenario_memory 10000 10000 10000).heap.length ∧ (0 : Nat) ≠ 1) ∧
    transfer_money (scenario_memory 10000 10000 10000) (some 0) (some 1) 5000
      = some (scenario_memory 5000 15000 10000, 1) ∧
    ∃ m1 r, transfer_money (scenario_memory 10000 10000 10000) (some 0) (some 1) 5000
        = some (m1, r) ∧
      (r = 1 ↔ (5000 : Int) ≤ balance_at (scenario_memory 10000 10000 10000) 0) ∧
      (r = 1 → in_int_range (balance_at (scenario_memory 10000 10000 10000) 0 - 5000) →
        in_int_range (balance_at (scenario_memory 10000 10000 10000) 1 + 5000) →
          balance_at m1 0 = balance_at (scenario_memory 10000 10000 10000) 0 - 5000 ∧
            balance_at m1 1 = balance_at (scenario_memory 10000 10000 10000) 1 + 5000) :=
  ⟨by decide, by decide,
    transfer_money_accepts_iff_funds (scenario_memory 10000 10000 10000) 0 1 5000
      (by decide) (by decide) (by decide)⟩

/-! C2: a refused transfer -/

/-- C2: for allocated accounts `f` and `t` (equal or not) and every amount,
`transfer_money` returns, it returns 0 exactly when `from.balance < amount`, and
when it returns 0 the whole memory is what it was before the call. -/
theorem transfer_money_refuses_iff_short (m : Memory) (f t : Nat) (amount : Int)
    (hf : f < m.heap.length) (ht : t < m.heap.length) :
    ∃ m1 r, transfer_money m (some f) (some t) amount = some (m1, r) ∧
      (r = 0 ↔ balance_at m f < amount) ∧ (r = 0 → m1 = m) := by
  obtain ⟨fa, hfa⟩ := exists_get_of_lt hf
  rw [balance_at_of_get hfa]
  by_cases hlt : fa.balance < amount
  · exact ⟨m, 0, transfer_money_refused _ hfa hlt, ⟨fun _ => hlt, fun _ => rfl⟩, fun _ => rfl⟩
  · have ht1 : t < (m.heap.set f (set_balance fa (wrap32 (fa.balance - amount)))).length := by
      simpa using ht
    refine ⟨_, 1, transfer_money_accepted hfa hlt (List.getElem?_eq_getElem ht1), ?_, ?_⟩
    · constructor
      · intro h; exact absurd h (by decide)
      · intro h; exact absurd h hlt
    · intro h; exact absurd h (by decide)

/-- C2 (witness): `acct2 = 15000` and `transfer(acct2, acct3, 20000)`. -/
theorem transfer_money_refuses_iff_short_witness :
    (1 < (scenario_memory 5000 15000 10000).heap.length ∧
      2 < (scenario_memory 5000 15000 10000).heap.length) ∧
    transfer_money (scenario_memory 5000 15000 10000) (some 1) (some 2) 20000
      = some (scenario_memory 5000 15000 10000, 0) ∧
    ∃ m1 r, transfer_money (scenario_memory 5000 15000 10000) (some 1) (some 2) 20000
        = some (m1, r) ∧
      (r = 0 ↔ balance_at (scenario_memory 5000 15000 10000) 1 < 20000) ∧
      (r = 0 → m1 = scenario_memory 5000 15000 10000) :=
  ⟨by decide, by decide,
    transfer_money_refuses_iff_short (scenario_memory 5000 15000 10000) 1 2 20000
      (by decide) (by decide)⟩

/-! C3: conservation of the sum -/

/-- C3 (counterexample): on the registry with balances 1, 2147483647, 0 the
single call `transfer_money(acct1, acct2, 1)` takes the sum of the balances from
2147483648 to -2147483648. -/
theorem total_balance_changes_on_wrap :
    registry_ok (scenario_memory 1 2147483647 0) ∧
      run_transfers (scenario_memory 1 2147483647 0) [⟨0, 1, 1⟩]
        = some [scenario_memory 0 (-2147483648) 0] ∧
      total_balance (scenario_memory 1 2147483647 0) = 2147483648 ∧
      total_balance (scenario_memory 0 (-2147483648) 0) = -2147483648 := by
  decide

/-- C3 (amended): for every registry whose nodes point to distinct allocated
accounts and every finite sequence of `transfer_money` calls on accounts of that
registry (accepted or refused, any pair including `from = to`, any amount) in
which no subtraction or addition leaves the `int` range, every call returns and
the sum of the balances of the registry after each call, so after the whole
sequence, equals the sum before it. -/
theorem total_balance_conserved (m : Memory) (calls : List transfer_call)
    (hreg : registry_ok m)
    (hcalls : ∀ c ∈ calls, c.from_ ∈ m.bank_account_chain ∧ c.to_ ∈ m.bank_account_chain)
    (hexact : transfers_exact m calls) :
    ∃ ms, run_transfers m calls = some ms ∧ ms.length = calls.length ∧
      ∀ m1 ∈ ms, total_balance m1 = total_balance m :=
  total_balance_conserved_aux m.bank_account_chain hreg.2 calls m rfl hreg.1 hcalls hexact

/-- C3 (witness): an accepted call, a refused call and a self-transfer on the
registry with balances 10000, 10000, 10000. -/
theorem total_balance_conserved_witness :
    (registry_ok (scenario_memory 10000 10000 10000) ∧
      (∀ c ∈ [(⟨0, 1, 5000⟩ : transfer_call), ⟨1, 2, 20000⟩, ⟨2, 2, 100⟩],
        c.from_ ∈ (scenario_memory 10000 10000 10000).bank_account_chain ∧
          c.to_ ∈ (scenario_memory 10000 10000 10000).bank_account_chain) ∧
      transfers_exact (scenario_memory 10000 10000 10000)
        [⟨0, 1, 5000⟩, ⟨1, 2, 20000⟩, ⟨2, 2, 100⟩]) ∧
    ∃ ms, run_transfers (scenario_memory 10000 10000 10000)
        [⟨0, 1, 5000⟩, ⟨1, 2, 20000⟩, ⟨2, 2, 100⟩] = some ms ∧
      ms.length = [(⟨0, 1, 5000⟩ : transfer_call), ⟨1, 2, 20000⟩, ⟨2, 2, 100⟩].length ∧
      ∀ m1 ∈ ms, total_balance m1 = total_balance (scenario_memory 10000 10000 10000) :=
  ⟨by decide,
    total_balance_conserved (scenario_memory 10000 10000 10000)
      [⟨0, 1, 5000⟩, ⟨1, 2, 20000⟩, ⟨2, 2, 100⟩] (by decide) (by decide) (by decide)⟩

/-! C4: no negative balance -/

/-- C4 (counterexample): every balance of the registry 1, 2147483647, 0 is
non-negative, the amount 1 is non-negative, and after the single call
`transfer_money(acct1, acct2, 1)` the balance of `acct2` is negative. -/
theorem balance_negative_on_wrap :
    (∀ a ∈ (scenario_memory 1 2147483647 0).bank_account_chain,
        0 ≤ balance_at (scenario_memory 1 2147483647 0) a) ∧
      run_transfers (scenario_memory 1 2147483647 0) [⟨0, 1, 1⟩]
        = some [scenario_memory 0 (-2147483648) 0] ∧
      balance_at (scenario_memory 0 (-2147483648) 0) 1 < 0 := by
  decide

theorem balances_stay_nonnegative_aux (chain : List Nat) :
    ∀ (calls : List transfer_call) (m : Memory), m.bank_account_chain = chain →
      (∀ a ∈ chain, a < m.heap.length) →
      (∀ c ∈ calls, c.from_ ∈ chain ∧ c.to_ ∈ chain) →
      (∀ a ∈ chain, 0 ≤ balance_at m a) →
      (∀ c ∈ calls, 0 ≤ c.amount) →
      transfers_exact m calls →
      ∃ ms, run_transfers m calls = some ms ∧ ms.length = calls.length ∧
        ∀ m1 ∈ ms, ∀ a ∈ m1.bank_account_chain, 0 ≤ balance_at m1 a := by
  intro calls
  induction calls with
  | nil => intro m _ _ _ _ _ _; exact ⟨[], rfl, rfl, by simp⟩
  | cons c cs ih =>
    intro m hchain hvalid hcalls h0 hamount hexact
    have hc := hcalls c (by simp)
    have hamt := hamount c (by simp)
    obtain ⟨m1, r, hrun, hchain1, hlen1, -, -, -, -, hcases⟩ :=
      transfer_money_effect m c.from_ c.to_ c.amount (hvalid _ hc.1) (hvalid _ hc.2)
    simp only [transfers_exact, hrun] at hexact
    have h1 : ∀ a ∈ chain, 0 ≤ balance_at m1 a := by
      rcases hcases with ⟨-, -, hm⟩ | ⟨hge, -, hbal⟩
      · rw [hm]; exact h0
      · rcases hexact.1 with hlt | ⟨hsub, hadd⟩
        · omega
        · intro a ha
          have hbf := h0 _ hc.1
          have hbt := h0 _ hc.2
          have hba := h0 a ha
          rw [hbal a]
          by_cases htf : c.to_ = c.from_
          · rw [if_pos htf] at hadd
            rw [if_pos htf, wrap32_of_in_int_range hsub, wrap32_of_in_int_range hadd]
            split_ifs <;> omega
          · rw [if_neg htf] at hadd
            rw [if_neg htf, wrap32_of_in_int_range hsub, wrap32_of_in_int_range hadd]
            split_ifs <;> omega
    obtain ⟨ms, hms, hlen, hall⟩ := ih m1 (hchain1.trans hchain)
      (fun a ha => hlen1 ▸ hvalid a ha)
      (fun c1 hc1 => hcalls c1 (by simp [hc1])) h1
      (fun c1 hc1 => hamount c1 (by simp [hc1])) hexact.2
    refine ⟨m1 :: ms, by simp [run_transfers, hrun, hms], by simp [hlen], ?_⟩
    intro m2 hm2
    rcases List.mem_cons.mp hm2 with e | e
    · rw [e, hchain1, hchain]; exact h1
    · exact hall m2 e

/-- C4 (amended): for every registry whose nodes point to allocated accounts
and in which every balance is >= 0, and every finite sequence of
`transfer_money` calls on accounts of that registry whose amounts are
non-negative and in which no subtraction or addition leaves the `int` range,
every call returns and every account of the registry has a balance >= 0 after
every call of the sequence. -/
theorem balances_stay_nonnegative (m : Memory) (calls : List transfer_call)
    (hvalid : ∀ a ∈ m.bank_account_chain, a < m.heap.length)
    (hcalls : ∀ c ∈ calls, c.from_ ∈ m.bank_account_chain ∧ c.to_ ∈ m.bank_account_chain)
    (hnonneg : ∀ a ∈ m.bank_account_chain, 0 ≤ balance_at m a)
    (hamount : ∀ c ∈ calls, 0 ≤ c.amount)
    (hexact : transfers_exact m calls) :
    ∃ ms, run_transfers m calls = some ms ∧ ms.length = calls.length ∧
      ∀ m1 ∈ ms, ∀ a ∈ m1.bank_account_chain, 0 ≤ balance_at m1 a :=
  balances_stay_nonnegative_aux m.bank_account_chain calls m rfl hvalid hcalls hnonneg
    hamount hexact

/-- C4 (witness): an accepted call that empties an account, a refused call and
a self-transfer on the registry with balances 10000, 10000, 10000. -/
theorem balances_stay_nonnegative_witness :
    ((∀ a ∈ (scenario_memory 10000 10000 10000).bank_account_chain,
        a < (scenario_memory 10000 10000 10000).heap.length) ∧
      (∀ c ∈ [(⟨0, 1, 10000⟩ : transfer_call), ⟨0, 2, 1⟩, ⟨1, 1, 20000⟩],
        c.from_ ∈ (scenario_memory 10000 10000 10000).bank_account_chain ∧
          c.to_ ∈ (scenario_memory 10000 10000 10000).bank_account_chain) ∧
      (∀ a ∈ (scenario_memory 10000 10000 10000).bank_account_chain,
        0 ≤ balance_at (scenario_memory 10000 10000 10000) a) ∧
      (∀ c ∈ [(⟨0, 1, 10000⟩ : transfer_call), ⟨0, 2, 1⟩, ⟨1, 1, 20000⟩], 0 ≤ c.amount) ∧
      transfers_exact (scenario_memory 10000 10000 10000)
        [⟨0, 1, 10000⟩, ⟨0, 2, 1⟩, ⟨1, 1, 20000⟩]) ∧
    ∃ ms, run_transfers (scenario_memory 10000 10000 10000)
        [⟨0, 1, 10000⟩, ⟨0, 2, 1⟩, ⟨1, 1, 20000⟩] = some ms ∧
      ms.length = [(⟨0, 1, 10000⟩ : transfer_call), ⟨0, 2, 1⟩, ⟨1, 1, 20000⟩].length ∧
      ∀ m1 ∈ ms, ∀ a ∈ m1.bank_account_chain, 0 ≤ balance_at m1 a :=
  ⟨by decide,
    balances_stay_nonnegative (scenario_memory 10000 10000 10000)
      [⟨0, 1, 10000⟩, ⟨0, 2, 1⟩, ⟨1, 1, 20000⟩]
      (by decide) (by decide) (by decide) (by decide) (by decide)⟩

/-! C5: self-transfer -/

/-- C5: for every allocated account `a` whose balance is an `int`, and every
non-negative amount with `a.balance >= amount`, `transfer_money(a, a, amount)`
returns 1 and leaves the whole memory, so `a.balance` and every other balance,
unchanged. -/
theorem transfer_money_self (m : Memory) (a : Nat) (amount : Int)
    (ha : a < m.heap.length) (hint : in_int_range (balance_at m a))
    (hamount : 0 ≤ amount) (hfunds : amount ≤ balance_at m a) :
    transfer_money m (some a) (some a) amount = some (m, 1) := by
  obtain ⟨acc, hacc⟩ := exists_get_of_lt ha
  rw [balance_at_of_get hacc] at hint hfunds
  have hlt : ¬ acc.balance < amount := by omega
  have h1 : in_int_range (acc.balance - amount) := by
    unfold in_int_range INT_MIN INT_MAX at *
    omega
  have hget : (m.heap.set a (set_balance acc (wrap32 (acc.balance - amount))))[a]?
      = some (set_balance acc (wrap32 (acc.balance - amount))) :=
    List.getElem?_set_self ha
  rw [transfer_money_accepted hacc hlt hget]
  have hback : set_balance (set_balance acc (wrap32 (acc.balance - amount)))
      (wrap32 ((set_balance acc (wrap32 (acc.balance - amount))).balance + amount)) = acc := by
    simp only [set_balance, wrap32_of_in_int_range h1, sub_add_cancel,
      wrap32_of_in_int_range hint]
  rw [hback]
  have hheap : (m.heap.set a (set_balance acc (wrap32 (acc.balance - amount)))).set a acc
      = m.heap := by
    rw [List.set_set]
    exact set_of_get hacc
  simp [hheap]

/-- C5 (witness): account 1 with balance 5000 sends 5000 to itself. -/
theorem transfer_money_self_witness :
    (0 < (scenario_memory 5000 15000 10000).heap.length ∧
      in_int_range (balance_at (scenario_memory 5000 15000 10000) 0) ∧
      (0 : Int) ≤ 5000 ∧ 5000 ≤ balance_at (scenario_memory 5000 15000 10000) 0) ∧
    transfer_money (scenario_memory 5000 15000 10000) (some 0) (some 0) 5000
      = some (scenario_memory 5000 15000 10000, 1) :=
  ⟨by decide,
    transfer_money_self (scenario_memory 5000 15000 10000) 0 5000
      (by decide) (by decide) (by decide) (by decide)⟩

/-! C6: lookup on a non-empty registry -/

/-- C6: for every non-empty registry whose nodes point to allocated accounts and
every identifier, `get_bank_account` returns and leaves the memory unchanged; it
returns `NULL` exactly when no account of the registry is named `identifier`,
and otherwise it returns the account of the first node, in insertion order,
whose account is named exactly `identifier`. -/
theorem get_bank_account_first_match (m : Memory) (identifier : String)
    (hnonempty : m.bank_account_chain ≠ [])
    (hvalid : ∀ a ∈ m.bank_account_chain, a < m.heap.length) :
    ∃ r, get_bank_account m identifier = some (m, r) ∧
      (r = none ↔ ∀ a ∈ m.bank_account_chain, read_identifier m a ≠ some identifier) ∧
      (∀ p, r = some p → ∃ i : Nat, m.bank_account_chain[i]? = some p ∧
        read_identifier m p = some identifier ∧
        ∀ j : Nat, j < i → ∀ b, m.bank_account_chain[j]? = some b →
          read_identifier m b ≠ some identifier) :=
  get_bank_account_lookup m identifier hnonempty hvalid

/-- C6 (witness): on the registry named as by seeding, `find("bank account 2")`
is the second account and `find("nonexistent")` is not-found. -/
theorem get_bank_account_first_match_witness :
    ((scenario_memory 10000 10000 10000).bank_account_chain ≠ [] ∧
      ∀ a ∈ (scenario_memory 10000 10000 10000).bank_account_chain,
        a < (scenario_memory 10000 10000 10000).heap.length) ∧
    get_bank_account (scenario_memory 10000 10000 10000) "bank account 2"
      = some (scenario_memory 10000 10000 10000, some 1) ∧
    get_bank_account (scenario_memory 10000 10000 10000) "nonexistent"
      = some (scenario_memory 10000 10000 10000, none) ∧
    ∃ r, get_bank_account (scenario_memory 10000 10000 10000) "bank account 2"
        = some (scenario_memory 10000 10000 10000, r) ∧
      (r = none ↔ ∀ a ∈ (scenario_memory 10000 10000 10000).bank_account_chain,
        read_identifier (scenario_memory 10000 10000 10000) a ≠ some "bank account 2") ∧
      (∀ p, r = some p → ∃ i : Nat,
        (scenario_memory 10000 10000 10000).bank_account_chain[i]? = some p ∧
        read_identifier (scenario_memory 10000 10000 10000) p = some "bank account 2" ∧
        ∀ j : Nat, j < i → ∀ b, (scenario_memory 10000 10000 10000).bank_account_chain[j]? = some b →
          read_identifier (scenario_memory 10000 10000 10000) b ≠ some "bank account 2") :=
  ⟨by decide, by decide, by decide,
    get_bank_account_first_match (scenario_memory 10000 10000 10000) "bank account 2"
      (by decide) (by decide)⟩

/-! C7: lookup on the empty registry -/

/-- C7 (code): when `bank_account_chain` is `NULL`, `get_bank_account` faults for
every identifier: the body of its `do ... while` loop reads
`current_account_node->account` before any test for `NULL`. -/
theorem get_bank_account_null_chain_faults (m : Memory) (identifier : String) :
    get_bank_account { m with bank_account_chain := [] } identifier = none ∧
      get_bank_account initial_memory identifier = none :=
  ⟨rfl, rfl⟩

/-! C8: one worker reaches the quota -/

/-- C8: for every `int` quota `Q >= 1`, every `int` account count `N >= 2` and
every sequence of non-negative `rand()` results, one worker started on the
registry seeded from a memory with an empty chain, `transaction_count = 0` and
`program_running = 1` behaves as follows.  After each `k < Q` passes no fault
has occurred, `transaction_count = k`, `program_running` is still 1 and the
thread goes on with its self-call.  After exactly `Q` passes
`transaction_count = Q`, and the thread returns, with `program_running = 0` and
nothing else changed, as soon as it is given fuel for `Q` passes and not with
less. -/
theorem single_worker_reaches_quota (rand : Nat → Int) (N : Nat) (Q : Int) (m0 : Memory)
    (hrand : ∀ k, 0 ≤ rand k) (hN : 2 ≤ N) (hNint : (N : Int) ≤ INT_MAX)
    (hQ : 1 ≤ Q) (hQint : Q ≤ INT_MAX)
    (hempty : m0.bank_account_chain = []) (hcount : m0.transaction_count = 0)
    (hrunning : m0.program_running = 1) :
    (∀ k : Nat, (k : Int) < Q →
      ∃ mk, worker_iterations rand N k (setup_bank_chain_test_data rand N m0) = some mk ∧
        mk.transaction_count = k ∧ mk.program_running = 1 ∧
        ∀ fuel, setup_bank_chain_test_thread rand N Q (k + fuel)
            (setup_bank_chain_test_data rand N m0)
          = setup_bank_chain_test_thread rand N Q fuel mk) ∧
    (∃ mQ, worker_iterations rand N Q.toNat (setup_bank_chain_test_data rand N m0) = some mQ ∧
      mQ.transaction_count = Q ∧ mQ.program_running = 1 ∧
      (∀ fuel, Q.toNat ≤ fuel →
        setup_bank_chain_test_thread rand N Q fuel (setup_bank_chain_test_data rand N m0)
          = some { mQ with program_running := 0 }) ∧
      (∀ fuel, fuel < Q.toNat →
        setup_bank_chain_test_thread rand N Q fuel (setup_bank_chain_test_data rand N m0)
          = none)) := by
  have hseed : seeded_upto N (setup_bank_chain_test_data rand N m0) := by
    have := seeded_upto_loop rand hrand N 0 m0 (by simpa using hNint) (seeded_upto_zero m0 hempty)
    simpa [setup_bank_chain_test_data] using this
  have hready := worker_ready_of_seeded N _ hN hseed
  have hcounters := setup_bank_chain_test_data_loop_counters rand N 0 m0
  have hN2 : (2 : Int) ≤ N := by exact_mod_cast hN
  have htc : (setup_bank_chain_test_data rand N m0).transaction_count = 0 :=
    hcounters.1.trans hcount
  have hpr : (setup_bank_chain_test_data rand N m0).program_running = 1 :=
    hcounters.2.trans hrunning
  have hcountk := worker_iterations_count rand hrand N hN2 hNint _ hready htc
  have hafter := setup_bank_chain_test_thread_after rand hrand N Q hN2 hNint hQint _ hready htc
  constructor
  · intro k hk
    obtain ⟨mk, hmk, hfuel⟩ := hafter k hk
    obtain ⟨mk1, hmk1, -, htck, hprk⟩ := hcountk k (by omega)
    rw [hmk] at hmk1
    obtain rfl := Option.some.inj hmk1
    exact ⟨mk, hmk, htck, hprk.trans hpr, hfuel⟩
  · obtain ⟨q, hq⟩ : ∃ q : Nat, Q = ((q + 1 : Nat) : Int) := ⟨(Q - 1).toNat, by omega⟩
    have hqn : Q.toNat = q + 1 := by omega
    obtain ⟨mQ, hmQ, -, htcQ, hprQ⟩ := hcountk (q + 1) (by omega)
    obtain ⟨mq, hmq, hfuel⟩ := hafter q (by omega)
    have hstep : worker_iteration rand N mq = some mQ := by
      simpa [worker_iterations, hmq] using hmQ
    refine ⟨mQ, by rw [hqn]; exact hmQ, by rw [htcQ, hq], hprQ.trans hpr, ?_, ?_⟩
    · intro fuel hfuel1
      obtain ⟨f, hf⟩ : ∃ f, fuel = q + (f + 1) := ⟨fuel - (q + 1), by omega⟩
      rw [hf, hfuel (f + 1), setup_bank_chain_test_thread]
      have hcond : mQ.transaction_count ≥ Q := by rw [htcQ, hq]
      simp [hstep, hcond]
    · intro fuel hfuel1
      obtain ⟨mf, -, hfuelf⟩ := hafter fuel (by omega)
      have := hfuelf 0
      rw [Nat.add_zero] at this
      rw [this]; rfl

/-- C8 (witness): quota 2 and three seeded accounts. -/
theorem single_worker_reaches_quota_witness :
    ((∀ k, 0 ≤ sample_rand k) ∧ 2 ≤ 3 ∧ ((3 : Nat) : Int) ≤ INT_MAX ∧ (1 : Int) ≤ 2 ∧
      (2 : Int) ≤ INT_MAX ∧ initial_memory.bank_account_chain = [] ∧
      initial_memory.transaction_count = 0 ∧ initial_memory.program_running = 1) ∧
    (∀ k : Nat, (k : Int) < 2 →
      ∃ mk, worker_iterations sample_rand (3 : Nat) k
          (setup_bank_chain_test_data sample_rand 3 initial_memory) = some mk ∧
        mk.transaction_count = k ∧ mk.program_running = 1 ∧
        ∀ fuel, setup_bank_chain_test_thread sample_rand (3 : Nat) 2 (k + fuel)
            (setup_bank_chain_test_data sample_rand 3 initial_memory)
          = setup_bank_chain_test_thread sample_rand (3 : Nat) 2 fuel mk) ∧
    (∃ mQ, worker_iterations sample_rand (3 : Nat) (2 : Int).toNat
          (setup_bank_chain_test_data sample_rand 3 initial_memory) = some mQ ∧
      mQ.transaction_count = 2 ∧ mQ.program_running = 1 ∧
      (∀ fuel, (2 : Int).toNat ≤ fuel →
        setup_bank_chain_test_thread sample_rand (3 : Nat) 2 fuel
            (setup_bank_chain_test_data sample_rand 3 initial_memory)
          = some { mQ with program_running := 0 }) ∧
      (∀ fuel, fuel < (2 : Int).toNat →
        setup_bank_chain_test_thread sample_rand (3 : Nat) 2 fuel
            (setup_bank_chain_test_data sample_rand 3 initial_memory)
          = none)) :=
  ⟨⟨fun k => by unfold sample_rand; omega, by decide, by decide, by decide, by decide,
      rfl, rfl, rfl⟩,
    single_worker_reaches_quota sample_rand 3 2 initial_memory
      (fun k => by unfold sample_rand; omega) (by decide) (by decide) (by decide) (by decide)
      rfl rfl rfl⟩

/-! C9: a lookup that finds nothing -/

/-- C9 (code): on the registry holding only `"bank account 1"`, with
`TEST_BANK_ACCOUNTS_COUNT = 3`, the lookup of `"bank account 2"` returns `NULL`
and the worker pass hands it to `transfer_money` unchecked.  With `rand()`
giving 1, 1, 1 the first identifier is missing and the pass faults at
`from->balance`; with `rand()` giving 0, 1, 0 only the second identifier is
missing, the guard passes and the pass faults at `to->balance`.  Neither pass
reaches the increment of `transaction_count`. -/
theorem worker_iteration_missing_account_faults :
    get_bank_account one_account_memory "bank account 2" = some (one_account_memory, none) ∧
      worker_iteration (fun _ => 1) 3 one_account_memory = none ∧
      worker_iteration (fun k => if k = 1 then 1 else 0) 3 one_account_memory = none ∧
      transfer_money one_account_memory none (some 0) 1 = none ∧
      transfer_money one_account_memory (some 0) none 0 = none := by
  decide

/-! C10: seeding -/

/-- C10: for every `int` count `n` (`n >= 1`, and trivially `n = 0`) and every
sequence of non-negative `rand()` results, seeding `n` accounts into a memory
whose chain is empty leaves a registry of exactly `n` accounts in which the
`i`-th account (counted from 1, in insertion order) is named
`"bank account <i>"` and has a balance `b` with `10000 <= b <= 30000`. -/
theorem setup_bank_chain_test_data_seeds (rand : Nat → Int) (n : Nat) (m0 : Memory)
    (hrand : ∀ k, 0 ≤ rand k) (hnint : (n : Int) ≤ INT_MAX)
    (hempty : m0.bank_account_chain = []) :
    (setup_bank_chain_test_data rand n m0).bank_account_chain.length = n ∧
      ∀ i : Nat, 1 ≤ i → i ≤ n →
        ∃ a acc, (setup_bank_chain_test_data rand n m0).bank_account_chain[i - 1]? = some a ∧
          (setup_bank_chain_test_data rand n m0).heap[a]? = some acc ∧
          acc.identifier = "bank account " ++ toString i ∧
          10000 ≤ acc.balance ∧ acc.balance ≤ 30000 := by
  have hseed : seeded_upto n (setup_bank_chain_test_data rand n m0) := by
    have := seeded_upto_loop rand hrand n 0 m0 (by simpa using hnint) (seeded_upto_zero m0 hempty)
    simpa [setup_bank_chain_test_data] using this
  obtain ⟨hlen, -, hacc⟩ := hseed
  refine ⟨hlen, ?_⟩
  intro i hi1 hin
  obtain ⟨a, acc, h1, h2, h3, h4, h5⟩ := hacc (i - 1) (by omega)
  have e : i - 1 + 1 = i := by omega
  rw [e] at h3
  exact ⟨a, acc, h1, h2, h3, h4, by omega⟩

/-- C10 (witness): three accounts seeded with the `rand()` results 23456, 31375,
39294. -/
theorem setup_bank_chain_test_data_seeds_witness :
    ((∀ k, 0 ≤ sample_rand k) ∧ ((3 : Nat) : Int) ≤ INT_MAX ∧
      initial_memory.bank_account_chain = []) ∧
    setup_bank_chain_test_data sample_rand 3 initial_memory
      = { heap := [⟨13456, "bank account 1"⟩, ⟨21375, "bank account 2"⟩,
                   ⟨29294, "bank account 3"⟩],
          bank_account_chain := [0, 1, 2], transaction_count := 0, program_running := 1,
          rand_calls := 3 } ∧
    (setup_bank_chain_test_data sample_rand 3 initial_memory).bank_account_chain.length = 3 ∧
      ∀ i : Nat, 1 ≤ i → i ≤ 3 →
        ∃ a acc,
          (setup_bank_chain_test_data sample_rand 3 initial_memory).bank_account_chain[i - 1]?
            = some a ∧
          (setup_bank_chain_test_data sample_rand 3 initial_memory).heap[a]? = some acc ∧
          acc.identifier = "bank account " ++ toString i ∧
          10000 ≤ acc.balance ∧ acc.balance ≤ 30000 :=
  ⟨⟨fun k => by unfold sample_rand; omega, by decide, rfl⟩, by decide,
    setup_bank_chain_test_data_seeds sample_rand 3 initial_memory
      (fun k => by unfold sample_rand; omega) (by decide) rfl⟩

/-! C11: insertion order -/

/-- C11: for every registry (empty or not) and account `a`, `add_bank_account(a)`
yields the chain followed by `a` as its last node and changes nothing else;
hence adding `a1..an` (allocated accounts, `n >= 1`) in that order to a memory
with an empty chain gives the chain `a1..an`, `list_accounts` writes the lines
of `a1..an` in that order, and `get_bank_account` returns the first of `a1..an`
that is named as asked. -/
theorem add_bank_account_keeps_order (m : Memory) (a : Nat) (as : List Nat)
    (identifier : String) (hempty : m.bank_account_chain = []) (hsome : as ≠ [])
    (hvalid : ∀ x ∈ as, x < m.heap.length) :
    (∀ (r : Memory) (b : Nat),
      add_bank_account r b = { r with bank_account_chain := r.bank_account_chain ++ [b] }) ∧
    (as.foldl add_bank_account m).bank_account_chain = as ∧
    (add_bank_account (as.foldl add_bank_account m) a).bank_account_chain = as ++ [a] ∧
    list_accounts (as.foldl add_bank_account m)
      = some (as.foldl add_bank_account m,
          as.map (account_line (as.foldl add_bank_account m))) ∧
    get_bank_account (as.foldl add_bank_account m) identifier
      = some (as.foldl add_bank_account m,
          as.find? (is_named (as.foldl add_bank_account m) identifier)) := by
  have hfold := foldl_add_bank_account as m
  rw [hempty, List.nil_append] at hfold
  refine ⟨add_bank_account_eq, by rw [hfold], by rw [add_bank_account_eq, hfold], ?_, ?_⟩
  · rw [hfold]
    cases has : as with
    | nil => exact absurd has hsome
    | cons x rest =>
      rw [has] at hvalid
      have := list_accounts_loop_eq { m with bank_account_chain := x :: rest } rest x hvalid
      simp only [list_accounts, this, Option.map_some']
  · rw [hfold]
    cases has : as with
    | nil => exact absurd has hsome
    | cons x rest =>
      rw [has] at hvalid
      have := get_bank_account_scan_eq_find { m with bank_account_chain := x :: rest }
        identifier rest x hvalid
      simp only [get_bank_account, this, Option.map_some']

/-- C11 (witness): the accounts at addresses 2 and 0 are added in that order,
then the account at address 1; two of them are named `"savings"`. -/
theorem add_bank_account_keeps_order_witness :
    (unlinked_memory.bank_account_chain = [] ∧ ([2, 0] : List Nat) ≠ [] ∧
      ∀ x ∈ ([2, 0] : List Nat), x < unlinked_memory.heap.length) ∧
    list_accounts (add_bank_account (([2, 0] : List Nat).foldl add_bank_account unlinked_memory) 1)
      = some ({ unlinked_memory with bank_account_chain := [2, 0, 1] },
          ["savings has a balance of 200 \n", "savings has a balance of 300 \n",
            "current has a balance of 100 \n"]) ∧
    get_bank_account (([2, 0] : List Nat).foldl add_bank_account unlinked_memory) "savings"
      = some ({ unlinked_memory with bank_account_chain := [2, 0] }, some 2) ∧
    ((∀ (r : Memory) (b : Nat),
      add_bank_account r b = { r with bank_account_chain := r.bank_account_chain ++ [b] }) ∧
    (([2, 0] : List Nat).foldl add_bank_account unlinked_memory).bank_account_chain = [2, 0] ∧
    (add_bank_account (([2, 0] : List Nat).foldl add_bank_account unlinked_memory)
      1).bank_account_chain = [2, 0] ++ [1] ∧
    list_accounts (([2, 0] : List Nat).foldl add_bank_account unlinked_memory)
      = some (([2, 0] : List Nat).foldl add_bank_account unlinked_memory,
          ([2, 0] : List Nat).map
            (account_line (([2, 0] : List Nat).foldl add_bank_account unlinked_memory))) ∧
    get_bank_account (([2, 0] : List Nat).foldl add_bank_account unlinked_memory) "savings"
      = some (([2, 0] : List Nat).foldl add_bank_account unlinked_memory,
          ([2, 0] : List Nat).find?
            (is_named (([2, 0] : List Nat).foldl add_bank_account unlinked_memory)
              "savings"))) :=
  ⟨by decide, by decide, by decide,
    add_bank_account_keeps_order unlinked_memory 1 [2, 0] "savings" rfl (by decide)
      (by decide)⟩

/-! C13: identifiers are unique -/

/-- C13: for every `int` count `n` and every sequence of non-negative `rand()`
results, after seeding `n` accounts into a memory with an empty chain the
accounts at two different nodes of the chain have different identifiers
(`"bank account <i>"` and `"bank account <j>"` differ whenever `i != j`), and
after every call of a sequence of `transfer_money` calls on accounts of the
registry every account still has the identifier it had, so the identifiers are
still pairwise different. -/
theorem seeded_identifiers_distinct (rand : Nat → Int) (n : Nat) (m0 : Memory)
    (calls : List transfer_call)
    (hrand : ∀ k, 0 ≤ rand k) (hnint : (n : Int) ≤ INT_MAX)
    (hempty : m0.bank_account_chain = [])
    (hcalls : ∀ c ∈ calls,
      c.from_ ∈ (setup_bank_chain_test_data rand n m0).bank_account_chain ∧
        c.to_ ∈ (setup_bank_chain_test_data rand n m0).bank_account_chain) :
    (∀ i j : Nat, i ≠ j → "bank account " ++ toString i ≠ "bank account " ++ toString j) ∧
    (∀ (i j a b : Nat), i ≠ j →
      (setup_bank_chain_test_data rand n m0).bank_account_chain[i]? = some a →
      (setup_bank_chain_test_data rand n m0).bank_account_chain[j]? = some b →
      ∃ s t, read_identifier (setup_bank_chain_test_data rand n m0) a = some s ∧
        read_identifier (setup_bank_chain_test_data rand n m0) b = some t ∧ s ≠ t) ∧
    ∃ ms, run_transfers (setup_bank_chain_test_data rand n m0) calls = some ms ∧
      ms.length = calls.length ∧
      ∀ m1 ∈ ms,
        m1.bank_account_chain = (setup_bank_chain_test_data rand n m0).bank_account_chain ∧
        (∀ a, read_identifier m1 a
          = read_identifier (setup_bank_chain_test_data rand n m0) a) ∧
        ∀ (i j a b : Nat), i ≠ j → m1.bank_account_chain[i]? = some a →
          m1.bank_account_chain[j]? = some b →
          ∃ s t, read_identifier m1 a = some s ∧ read_identifier m1 b = some t ∧ s ≠ t := by
  have hseed : seeded_upto n (setup_bank_chain_test_data rand n m0) := by
    have := seeded_upto_loop rand hrand n 0 m0 (by simpa using hnint) (seeded_upto_zero m0 hempty)
    simpa [setup_bank_chain_test_data] using this
  obtain ⟨hlen, ⟨hvalid, -⟩, hacc⟩ := hseed
  have hnames : ∀ i j : Nat, i ≠ j →
      "bank account " ++ toString i ≠ "bank account " ++ toString j :=
    fun i j hij e => hij (bank_account_name_injective i j e)
  have hdistinct : ∀ (i j a b : Nat), i ≠ j →
      (setup_bank_chain_test_data rand n m0).bank_account_chain[i]? = some a →
      (setup_bank_chain_test_data rand n m0).bank_account_chain[j]? = some b →
      ∃ s t, read_identifier (setup_bank_chain_test_data rand n m0) a = some s ∧
        read_identifier (setup_bank_chain_test_data rand n m0) b = some t ∧ s ≠ t := by
    intro i j a b hij hi hj
    have hin : i < n := hlen ▸ (List.getElem?_eq_some_iff.mp hi).1
    have hjn : j < n := hlen ▸ (List.getElem?_eq_some_iff.mp hj).1
    obtain ⟨a1, acc1, h1, h2, h3, -⟩ := hacc i hin
    obtain ⟨b1, acc2, h4, h5, h6, -⟩ := hacc j hjn
    rw [hi] at h1
    rw [hj] at h4
    obtain rfl := Option.some.inj h1
    obtain rfl := Option.some.inj h4
    refine ⟨acc1.identifier, acc2.identifier, by simp [read_identifier, h2],
      by simp [read_identifier, h5], ?_⟩
    rw [h3, h6]
    exact hnames _ _ (by omega)
  refine ⟨hnames, hdistinct, ?_⟩
  obtain ⟨ms, hms, hmslen, hall⟩ :=
    run_transfers_induction (setup_bank_chain_test_data rand n m0).bank_account_chain
      (fun m1 => ∀ a, read_identifier m1 a
        = read_identifier (setup_bank_chain_test_data rand n m0) a)
      (fun _ => True)
      (by
        intro m c m1 r hchain hv hP _ hfrom hto hrun
        obtain ⟨m2, r2, hrun2, -, -, -, -, -, hid, -⟩ :=
          transfer_money_effect m c.from_ c.to_ c.amount (hv _ hfrom) (hv _ hto)
        rw [hrun] at hrun2
        obtain ⟨rfl, rfl⟩ := Prod.mk.inj (Option.some.inj hrun2)
        intro a
        rw [hid a, hP a])
      calls _ rfl hvalid (fun _ => rfl) (fun c hc => ⟨trivial, hcalls c hc⟩)
  refine ⟨ms, hms, hmslen, ?_⟩
  intro m1 hm1
  obtain ⟨hid, hchain, -⟩ := hall m1 hm1
  refine ⟨hchain, hid, ?_⟩
  intro i j a b hij hi hj
  rw [hchain] at hi hj
  obtain ⟨s, t, hs, ht, hst⟩ := hdistinct i j a b hij hi hj
  exact ⟨s, t, by rw [hid a, hs], by rw [hid b, ht], hst⟩

/-- C13 (witness): three seeded accounts, then an accepted and a refused call. -/
theorem seeded_identifiers_distinct_witness :
    ((∀ k, 0 ≤ sample_rand k) ∧ ((3 : Nat) : Int) ≤ INT_MAX ∧
      initial_memory.bank_account_chain = [] ∧
      ∀ c ∈ [(⟨0, 1, 5000⟩ : transfer_call), ⟨1, 2, 20000⟩],
        c.from_ ∈ sample_seeded_memory.bank_account_chain ∧
          c.to_ ∈ sample_seeded_memory.bank_account_chain) ∧
    ((∀ i j : Nat, i ≠ j → "bank account " ++ toString i ≠ "bank account " ++ toString j) ∧
    (∀ (i j a b : Nat), i ≠ j →
      sample_seeded_memory.bank_account_chain[i]? = some a →
      sample_seeded_memory.bank_account_chain[j]? = some b →
      ∃ s t, read_identifier sample_seeded_memory a = some s ∧
        read_identifier sample_seeded_memory b = some t ∧ s ≠ t) ∧
    ∃ ms, run_transfers sample_seeded_memory [⟨0, 1, 5000⟩, ⟨1, 2, 20000⟩] = some ms ∧
      ms.length = [(⟨0, 1, 5000⟩ : transfer_call), ⟨1, 2, 20000⟩].length ∧
      ∀ m1 ∈ ms,
        m1.bank_account_chain = sample_seeded_memory.bank_account_chain ∧
        (∀ a, read_identifier m1 a = read_identifier sample_seeded_memory a) ∧
        ∀ (i j a b : Nat), i ≠ j → m1.bank_account_chain[i]? = some a →
          m1.bank_account_chain[j]? = some b →
          ∃ s t, read_identifier m1 a = some s ∧ read_identifier m1 b = some t ∧ s ≠ t) :=
  ⟨⟨fun k => by unfold sample_rand; omega, by decide, rfl, by decide⟩,
    seeded_identifiers_distinct sample_rand 3 initial_memory [⟨0, 1, 5000⟩, ⟨1, 2, 20000⟩]
      (fun k => by unfold sample_rand; omega) (by decide) rfl (by decide)⟩

/-! C14: the frame of a transfer -/

/-- C14: for every two allocated accounts `f` and `t` and every amount,
`transfer_money`, accepted or refused, returns, changes the balance of no
account other than `f` and `t`, changes no identifier, and leaves the chain (its
nodes and their order) and the number of allocated accounts as they were. -/
theorem transfer_money_frame (m : Memory) (f t : Nat) (amount : Int)
    (hf : f < m.heap.length) (ht : t < m.heap.length) :
    ∃ m1 r, transfer_money m (some f) (some t) amount = some (m1, r) ∧ (r = 0 ∨ r = 1) ∧
      (∀ a, a ≠ f → a ≠ t → balance_at m1 a = balance_at m a) ∧
      (∀ a, read_identifier m1 a = read_identifier m a) ∧
      m1.bank_account_chain = m.bank_account_chain ∧
      m1.heap.length = m.heap.length := by
  obtain ⟨m1, r, hrun, hchain, hlen, -, -, -, hid, hcases⟩ :=
    transfer_money_effect m f t amount hf ht
  refine ⟨m1, r, hrun, ?_, ?_, hid, hchain, hlen⟩
  · rcases hcases with ⟨-, hr, -⟩ | ⟨-, hr, -⟩
    · exact Or.inl hr
    · exact Or.inr hr
  · intro a haf hat
    rcases hcases with ⟨-, -, hm⟩ | ⟨-, -, hbal⟩
    · rw [hm]
    · rw [hbal a, if_neg hat, if_neg haf]

/-- C14 (witness): an accepted and a refused call on the registry with balances
10000, 10000, 10000. -/
theorem transfer_money_frame_witness :
    (0 < (scenario_memory 10000 10000 10000).heap.length ∧
      1 < (scenario_memory 10000 10000 10000).heap.length) ∧
    transfer_money (scenario_memory 10000 10000 10000) (some 0) (some 1) 5000
      = some (scenario_memory 5000 15000 10000, 1) ∧
    transfer_money (scenario_memory 10000 10000 10000) (some 0) (some 1) 10001
      = some (scenario_memory 10000 10000 10000, 0) ∧
    ∃ m1 r, transfer_money (scenario_memory 10000 10000 10000) (some 0) (some 1) 5000
        = some (m1, r) ∧ (r = 0 ∨ r = 1) ∧
      (∀ a, a ≠ 0 → a ≠ 1 → balance_at m1 a = balance_at (scenario_memory 10000 10000 10000) a) ∧
      (∀ a, read_identifier m1 a = read_identifier (scenario_memory 10000 10000 10000) a) ∧
      m1.bank_account_chain = (scenario_memory 10000 10000 10000).bank_account_chain ∧
      m1.heap.length = (scenario_memory 10000 10000 10000).heap.length :=
  ⟨by decide, by decide, by decide,
    transfer_money_frame (scenario_memory 10000 10000 10000) 0 1 5000 (by decide) (by decide)⟩

/-! C15: the indices a worker can draw -/

/-- C15 (code): with `TEST_BANK_ACCOUNTS_COUNT = 3` the two indices of a worker
pass are `rand() % 2 + 1`: every non-negative `rand()` result gives 1 or 2, both
are reached, and none gives 3, so the last seeded account `"bank account 3"` is
never chosen, neither as `from` nor as `to`. -/
theorem worker_never_draws_last_account :
    (∀ (rand : Nat → Int) (m : Memory),
      worker_iteration rand 3 m =
        (random_account_index 3 (rand m.rand_calls)).bind fun i1 =>
          (random_account_index 3 (rand (m.rand_calls + 1))).bind fun i2 =>
            (get_bank_account { m with rand_calls := m.rand_calls + 3 }
                (format_identifier i1)).bind fun r1 =>
              (get_bank_account r1.1 (format_identifier i2)).bind fun r2 =>
                (transfer_money r2.1 r1.2 r2.2 (Int.tmod (rand (m.rand_calls + 2)) 500)).bind
                  fun r3 =>
                    some { r3.1 with
                      transaction_count := wrap32 (r3.1.transaction_count + 1) }) ∧
    (∀ r : Nat, random_account_index 3 (r : Int) = some 1 ∨
      random_account_index 3 (r : Int) = some 2) ∧
    (∀ r : Nat, random_account_index 3 (r : Int) ≠ some 3) ∧
    random_account_index 3 0 = some 1 ∧ random_account_index 3 1 = some 2 ∧
    random_account_index 3 2 = some 1 ∧ random_account_index 3 2147483647 = some 2 := by
  refine ⟨fun rand m => worker_iteration_eq_indices rand 3 m, ?_, ?_, by decide, by decide,
    by decide, by decide⟩
  · intro r
    rw [random_account_index_three]
    rcases Int.emod_two_eq_zero_or_one (r : Int) with h | h
    · left; rw [h]; rfl
    · right; rw [h]; rfl
  · intro r
    rw [random_account_index_three]
    intro e
    have := Option.some.inj e
    omega

/-! C16: the identifiers a worker formats are found -/

/-- C16: for every sequence of non-negative `rand()` results, on the registry
produced by `setup_bank_chain_test_data` with `TEST_BANK_ACCOUNTS_COUNT = 3`
both lookups of a worker pass return an allocated account, never `NULL`, and
the pass goes on to call `transfer_money` on these two accounts. -/
theorem worker_lookups_succeed (rand : Nat → Int) (m0 : Memory)
    (hrand : ∀ k, 0 ≤ rand k) (hempty : m0.bank_account_chain = []) :
    ∃ i1 i2 p1 p2,
      random_account_index 3 (rand (setup_bank_chain_test_data rand 3 m0).rand_calls)
        = some i1 ∧
      random_account_index 3 (rand ((setup_bank_chain_test_data rand 3 m0).rand_calls + 1))
        = some i2 ∧
      get_bank_account
          { setup_bank_chain_test_data rand 3 m0 with
            rand_calls := (setup_bank_chain_test_data rand 3 m0).rand_calls + 3 }
          (format_identifier i1)
        = some ({ setup_bank_chain_test_data rand 3 m0 with
            rand_calls := (setup_bank_chain_test_data rand 3 m0).rand_calls + 3 }, some p1) ∧
      get_bank_account
          { setup_bank_chain_test_data rand 3 m0 with
            rand_calls := (setup_bank_chain_test_data rand 3 m0).rand_calls + 3 }
          (format_identifier i2)
        = some ({ setup_bank_chain_test_data rand 3 m0 with
            rand_calls := (setup_bank_chain_test_data rand 3 m0).rand_calls + 3 }, some p2) ∧
      p1 < (setup_bank_chain_test_data rand 3 m0).heap.length ∧
      p2 < (setup_bank_chain_test_data rand 3 m0).heap.length ∧
      worker_iteration rand 3 (setup_bank_chain_test_data rand 3 m0) =
        (transfer_money
            { setup_bank_chain_test_data rand 3 m0 with
              rand_calls := (setup_bank_chain_test_data rand 3 m0).rand_calls + 3 }
            (some p1) (some p2)
            (Int.tmod (rand ((setup_bank_chain_test_data rand 3 m0).rand_calls + 2)) 500)).bind
          fun r3 =>
            some { r3.1 with transaction_count := wrap32 (r3.1.transaction_count + 1) } := by
  have hseed : seeded_upto 3 (setup_bank_chain_test_data rand 3 m0) := by
    have := seeded_upto_loop rand hrand 3 0 m0 (by decide) (seeded_upto_zero m0 hempty)
    simpa [setup_bank_chain_test_data] using this
  have hready : worker_ready 3
      { setup_bank_chain_test_data rand 3 m0 with
        rand_calls := (setup_bank_chain_test_data rand 3 m0).rand_calls + 3 } :=
    worker_ready_of_seeded 3 _ (by decide) hseed
  have hidx : ∀ r : Int, 0 ≤ r →
      ∃ i, random_account_index 3 r = some i ∧ 1 ≤ i ∧ i ≤ 3 - 1 := by
    intro r hr
    obtain ⟨q, rfl⟩ : ∃ q : Nat, r = (q : Int) := ⟨r.toNat, by omega⟩
    exact ⟨_, random_account_index_three q, by omega, by omega⟩
  obtain ⟨i1, hi1, h1a, h1b⟩ := hidx _ (hrand (setup_bank_chain_test_data rand 3 m0).rand_calls)
  obtain ⟨i2, hi2, h2a, h2b⟩ :=
    hidx _ (hrand ((setup_bank_chain_test_data rand 3 m0).rand_calls + 1))
  obtain ⟨p1, hp1, hp1v⟩ := get_bank_account_of_worker_ready 3 _ hready i1 h1a h1b
  obtain ⟨p2, hp2, hp2v⟩ := get_bank_account_of_worker_ready 3 _ hready i2 h2a h2b
  refine ⟨i1, i2, p1, p2, hi1, hi2, hp1, hp2, hp1v, hp2v, ?_⟩
  rw [worker_iteration_eq_indices, hi1, hi2]
  simp only [Option.some_bind, hp1, hp2]

/-- C16 (witness): the registry seeded from the results of `sample_rand`. -/
theorem worker_lookups_succeed_witness :
    ((∀ k, 0 ≤ sample_rand k) ∧ initial_memory.bank_account_chain = []) ∧
    worker_iteration sample_rand 3 sample_seeded_memory
      = some { heap := [⟨13507, "bank account 1"⟩, ⟨21324, "bank account 2"⟩,
                   ⟨29294, "bank account 3"⟩],
               bank_account_chain := [0, 1, 2], transaction_count := 1, program_running := 1,
               rand_calls := 6 } ∧
    ∃ i1 i2 p1 p2,
      random_account_index 3 (sample_rand sample_seeded_memory.rand_calls) = some i1 ∧
      random_account_index 3 (sample_rand (sample_seeded_memory.rand_calls + 1)) = some i2 ∧
      get_bank_account
          { sample_seeded_memory with rand_calls := sample_seeded_memory.rand_calls + 3 }
          (format_identifier i1)
        = some ({ sample_seeded_memory with
            rand_calls := sample_seeded_memory.rand_calls + 3 }, some p1) ∧
      get_bank_account
          { sample_seeded_memory with rand_calls := sample_seeded_memory.rand_calls + 3 }
          (format_identifier i2)
        = some ({ sample_seeded_memory with
            rand_calls := sample_seeded_memory.rand_calls + 3 }, some p2) ∧
      p1 < sample_seeded_memory.heap.length ∧ p2 < sample_seeded_memory.heap.length ∧
      worker_iteration sample_rand 3 sample_seeded_memory =
        (transfer_money
            { sample_seeded_memory with rand_calls := sample_seeded_memory.rand_calls + 3 }
            (some p1) (some p2)
            (Int.tmod (sample_rand (sample_seeded_memory.rand_calls + 2)) 500)).bind
          fun r3 =>
            some { r3.1 with transaction_count := wrap32 (r3.1.transaction_count + 1) } :=
  ⟨⟨fun k => by unfold sample_rand; omega, rfl⟩, by decide,
    worker_lookups_succeed sample_rand initial_memory
      (fun k => by unfold sample_rand; omega) rfl⟩

/-! C17: no wrap-around in the benchmark -/

/-- C17: on every registry produced by seeding 3 accounts with non-negative
`rand()` results every balance lies in `[10000, 29999]`, and in every finite
sequence of `transfer_money` calls on accounts of that registry with
`0 <= amount < 500` every call returns, no subtraction or addition leaves the
`int` range (the 32-bit results are the exact ones), and every balance of the
registry lies in `[0, 89997]` after every call. -/
theorem benchmark_transfers_do_not_wrap (rand : Nat → Int) (m0 : Memory)
    (calls : List transfer_call)
    (hrand : ∀ k, 0 ≤ rand k) (hempty : m0.bank_account_chain = [])
    (hcalls : ∀ c ∈ calls,
      (0 ≤ c.amount ∧ c.amount < 500) ∧
        c.from_ ∈ (setup_bank_chain_test_data rand 3 m0).bank_account_chain ∧
        c.to_ ∈ (setup_bank_chain_test_data rand 3 m0).bank_account_chain) :
    (∀ a ∈ (setup_bank_chain_test_data rand 3 m0).bank_account_chain,
      10000 ≤ balance_at (setup_bank_chain_test_data rand 3 m0) a ∧
        balance_at (setup_bank_chain_test_data rand 3 m0) a ≤ 29999) ∧
    transfers_exact (setup_bank_chain_test_data rand 3 m0) calls ∧
    ∃ ms, run_transfers (setup_bank_chain_test_data rand 3 m0) calls = some ms ∧
      ms.length = calls.length ∧
      ∀ m1 ∈ ms, ∀ a ∈ m1.bank_account_chain,
        0 ≤ balance_at m1 a ∧ balance_at m1 a ≤ 89997 := by
  have hseed : seeded_upto 3 (setup_bank_chain_test_data rand 3 m0) := by
    have := seeded_upto_loop rand hrand 3 0 m0 (by decide) (seeded_upto_zero m0 hempty)
    simpa [setup_bank_chain_test_data] using this
  obtain ⟨hlen, ⟨hvalid, hnd⟩, hacc⟩ := hseed
  have hbounds : ∀ a ∈ (setup_bank_chain_test_data rand 3 m0).bank_account_chain,
      10000 ≤ balance_at (setup_bank_chain_test_data rand 3 m0) a ∧
        balance_at (setup_bank_chain_test_data rand 3 m0) a ≤ 29999 := by
    intro a ha
    obtain ⟨j, hj⟩ := List.mem_iff_getElem?.mp ha
    have hj3 : j < 3 := hlen ▸ (List.getElem?_eq_some_iff.mp hj).1
    obtain ⟨a1, acc, h1, h2, -, h4, h5⟩ := hacc j hj3
    rw [hj] at h1
    obtain rfl := Option.some.inj h1
    rw [balance_at_of_get h2]
    exact ⟨h4, h5⟩
  have htotal : total_balance (setup_bank_chain_test_data rand 3 m0) ≤ 89997 := by
    have := sum_map_le_length_mul _ (balance_at (setup_bank_chain_test_data rand 3 m0)) 29999
      (fun a ha => (hbounds a ha).2)
    rw [hlen] at this
    unfold total_balance
    norm_num at this
    exact this
  have hstep : ∀ (m : Memory) (c : transfer_call) (m1 : Memory) (r : Int),
      m.bank_account_chain = (setup_bank_chain_test_data rand 3 m0).bank_account_chain →
      (∀ a ∈ (setup_bank_chain_test_data rand 3 m0).bank_account_chain, a < m.heap.length) →
      ((∀ a ∈ m.bank_account_chain, 0 ≤ balance_at m a) ∧ total_balance m ≤ 89997) →
      (0 ≤ c.amount ∧ c.amount < 500) →
      c.from_ ∈ (setup_bank_chain_test_data rand 3 m0).bank_account_chain →
      c.to_ ∈ (setup_bank_chain_test_data rand 3 m0).bank_account_chain →
      transfer_money m (some c.from_) (some c.to_) c.amount = some (m1, r) →
      ((∀ a ∈ m1.bank_account_chain, 0 ≤ balance_at m1 a) ∧ total_balance m1 ≤ 89997) := by
    intro m c m1 r hchain hv hP hC hfrom hto hrun
    rw [← hchain] at hv hfrom hto
    have hex := benchmark_call_exact m c hfrom hto hP.1 hP.2 hC.1 hC.2
    have hkeep := transfer_money_keeps_registry m m1 _ _ _ r (hv _ hfrom) (hv _ hto) hrun
    constructor
    · rw [hkeep.1]
      exact transfer_money_keeps_nonneg m m1 c r hv hfrom hto hP.1 hC.1 hex hrun
    · rw [transfer_money_keeps_total m m1 c r (hchain ▸ hnd) hv hfrom hto hex hrun]
      exact hP.2
  have hP0 : (∀ a ∈ (setup_bank_chain_test_data rand 3 m0).bank_account_chain,
      0 ≤ balance_at (setup_bank_chain_test_data rand 3 m0) a) ∧
      total_balance (setup_bank_chain_test_data rand 3 m0) ≤ 89997 :=
    ⟨fun a ha => by have := (hbounds a ha).1; omega, htotal⟩
  refine ⟨hbounds, ?_, ?_⟩
  · exact transfers_exact_of_invariant _ _ _ hstep
      (by
        intro m c hchain hv hP hC hfrom hto
        rw [← hchain] at hfrom hto
        exact benchmark_call_exact m c hfrom hto hP.1 hP.2 hC.1 hC.2)
      calls _ rfl hvalid hP0 hcalls
  · obtain ⟨ms, hms, hmslen, hall⟩ :=
      run_transfers_induction _ _ _ hstep calls _ rfl hvalid hP0 hcalls
    refine ⟨ms, hms, hmslen, ?_⟩
    intro m1 hm1 a ha
    obtain ⟨⟨hnn, htot⟩, -, -⟩ := hall m1 hm1
    have := le_sum_map_of_nonneg _ (balance_at m1) hnn a ha
    unfold total_balance at htot
    exact ⟨hnn a ha, by omega⟩

/-- C17 (witness): three calls on the registry seeded from `sample_rand`. -/
theorem benchmark_transfers_do_not_wrap_witness :
    ((∀ k, 0 ≤ sample_rand k) ∧ initial_memory.bank_account_chain = [] ∧
      ∀ c ∈ [(⟨0, 1, 499⟩ : transfer_call), ⟨1, 2, 0⟩, ⟨2, 2, 300⟩],
        (0 ≤ c.amount ∧ c.amount < 500) ∧
          c.from_ ∈ sample_seeded_memory.bank_account_chain ∧
          c.to_ ∈ sample_seeded_memory.bank_account_chain) ∧
    ((∀ a ∈ sample_seeded_memory.bank_account_chain,
      10000 ≤ balance_at sample_seeded_memory a ∧ balance_at sample_seeded_memory a ≤ 29999) ∧
    transfers_exact sample_seeded_memory [⟨0, 1, 499⟩, ⟨1, 2, 0⟩, ⟨2, 2, 300⟩] ∧
    ∃ ms, run_transfers sample_seeded_memory [⟨0, 1, 499⟩, ⟨1, 2, 0⟩, ⟨2, 2, 300⟩] = some ms ∧
      ms.length = [(⟨0, 1, 499⟩ : transfer_call), ⟨1, 2, 0⟩, ⟨2, 2, 300⟩].length ∧
      ∀ m1 ∈ ms, ∀ a ∈ m1.bank_account_chain,
        0 ≤ balance_at m1 a ∧ balance_at m1 a ≤ 89997) :=
  ⟨⟨fun k => by unfold sample_rand; omega, rfl, by decide⟩,
    benchmark_transfers_do_not_wrap sample_rand initial_memory
      [⟨0, 1, 499⟩, ⟨1, 2, 0⟩, ⟨2, 2, 300⟩]
      (fun k => by unfold sample_rand; omega) rfl (by decide)⟩

/-! C19: a negative amount -/

/-- C19 (counterexample): on the registry with balances 2147483647, 0, 0 the
call `transfer_money(acct1, acct2, -1)` has `from.balance >= amount` and returns
1, and the new balance of `acct1` is -2147483648, not the old one increased
by 1. -/
theorem transfer_money_debit_wraps :
    (-1 : Int) ≤ balance_at (scenario_memory 2147483647 0 0) 0 ∧
      transfer_money (scenario_memory 2147483647 0 0) (some 0) (some 1) (-1)
        = some (scenario_memory (-2147483648) (-1) 0, 1) ∧
      balance_at (scenario_memory (-2147483648) (-1) 0) 0
        ≠ balance_at (scenario_memory 2147483647 0 0) 0 + |(-1 : Int)| := by
  decide

/-- C19 (amended): `transfer_money` does not check the sign of `amount`: for
every negative amount and every two distinct allocated accounts with
`from.balance >= amount` (in particular whenever `from.balance >= 0`) the call
returns 1, and when the exact difference and the exact sum are representable
in an `int` it increases `from.balance` by `|amount|` and decreases
`to.balance` by `|amount|`; and on the registry with balances 0, 0, 0 the call
with amount -1 leaves `to.balance` negative. -/
theorem transfer_money_negative_amount (m : Memory) (f t : Nat) (amount : Int)
    (hf : f < m.heap.length) (ht : t < m.heap.length) (hft : f ≠ t)
    (hneg : amount < 0) (hfunds : 0 ≤ balance_at m f ∨ amount ≤ balance_at m f) :
    (∃ m1, transfer_money m (some f) (some t) amount = some (m1, 1) ∧
      (in_int_range (balance_at m f - amount) → in_int_range (balance_at m t + amount) →
        balance_at m1 f = balance_at m f + |amount| ∧
          balance_at m1 t = balance_at m t - |amount|)) ∧
    ((∀ a ∈ (scenario_memory 0 0 0).bank_account_chain,
        0 ≤ balance_at (scenario_memory 0 0 0) a) ∧
      ∃ m1, transfer_money (scenario_memory 0 0 0) (some 0) (some 1) (-1) = some (m1, 1) ∧
        balance_at m1 1 < 0) := by
  constructor
  · obtain ⟨m1, r, hrun, -, -, -, -, -, -, hcases⟩ := transfer_money_effect m f t amount hf ht
    have habs : |amount| = -amount := abs_of_neg hneg
    rcases hcases with ⟨hlt, -, -⟩ | ⟨-, hr, hbal⟩
    · rcases hfunds with h | h <;> omega
    · subst hr
      refine ⟨m1, hrun, ?_⟩
      intro h1 h2
      have htf : t ≠ f := fun e => hft e.symm
      constructor
      · rw [hbal f, if_neg hft, if_pos rfl, wrap32_of_in_int_range h1, habs]; ring
      · rw [hbal t, if_pos rfl, if_neg htf, wrap32_of_in_int_range h2, habs]; ring
  · exact ⟨by decide, scenario_memory 1 (-1) 0, by decide, by decide⟩

/-- C19 (witness): the registry with balances 100, 50, 0 and amount -30. -/
theorem transfer_money_negative_amount_witness :
    (0 < (scenario_memory 100 50 0).heap.length ∧ 1 < (scenario_memory 100 50 0).heap.length ∧
      (0 : Nat) ≠ 1 ∧ (-30 : Int) < 0 ∧
      (0 ≤ balance_at (scenario_memory 100 50 0) 0 ∨
        (-30 : Int) ≤ balance_at (scenario_memory 100 50 0) 0)) ∧
    transfer_money (scenario_memory 100 50 0) (some 0) (some 1) (-30)
      = some (scenario_memory 130 20 0, 1) ∧
    ((∃ m1, transfer_money (scenario_memory 100 50 0) (some 0) (some 1) (-30) = some (m1, 1) ∧
      (in_int_range (balance_at (scenario_memory 100 50 0) 0 - (-30)) →
        in_int_range (balance_at (scenario_memory 100 50 0) 1 + (-30)) →
        balance_at m1 0 = balance_at (scenario_memory 100 50 0) 0 + |(-30 : Int)| ∧
          balance_at m1 1 = balance_at (scenario_memory 100 50 0) 1 - |(-30 : Int)|)) ∧
    ((∀ a ∈ (scenario_memory 0 0 0).bank_account_chain,
        0 ≤ balance_at (scenario_memory 0 0 0) a) ∧
      ∃ m1, transfer_money (scenario_memory 0 0 0) (some 0) (some 1) (-1) = some (m1, 1) ∧
        balance_at m1 1 < 0)) :=
  ⟨by decide, by decide,
    transfer_money_negative_amount (scenario_memory 100 50 0) 0 1 (-30)
      (by decide) (by decide) (by decide) (by decide) (by decide)⟩

/-! C18: lock discipline -/

/-- C18: the functions `add_bank_account`, `list_accounts`, `get_bank_account`,
`transfer_money` and one whole pass of `setup_bank_chain_test_thread`, traced
with the lock and unlock calls they issue on the three mutexes, compute what the
untraced functions compute, never lock a mutex while a mutex (another or the
same) is held, only unlock the mutex held, and hold no mutex when they have
returned, by whichever path: the refused transfer, the lookup that returns from
inside its loop, and every path of the worker pass included.  (A call that
faults stops while holding the mutex it was in.) -/
theorem lock_discipline_of_operations :
    (∀ (m : Memory) (account : Nat),
      (add_bank_account_traced m account).2 = add_bank_account m account ∧
        lock_discipline none (add_bank_account_traced m account).1 = some none) ∧
    (∀ m : Memory,
      (list_accounts_traced m).2 = list_accounts m ∧
        lock_discipline none (list_accounts_traced m).1
          = some (if (list_accounts_traced m).2.isSome then none else some BANK_MUTEX_INDEX)) ∧
    (∀ (m : Memory) (identifier : String),
      (get_bank_account_traced m identifier).2 = get_bank_account m identifier ∧
        lock_discipline none (get_bank_account_traced m identifier).1
          = some (if (get_bank_account_traced m identifier).2.isSome then none
              else some BANK_MUTEX_INDEX)) ∧
    (∀ (m : Memory) (from_ to_ : Option Nat) (amount : Int),
      (transfer_money_traced m from_ to_ amount).2 = transfer_money m from_ to_ amount ∧
        lock_discipline none (transfer_money_traced m from_ to_ amount).1
          = some (if (transfer_money_traced m from_ to_ amount).2.isSome then none
              else some BANK_MUTEX_INDEX)) ∧
    (∀ (rand : Nat → Int) (N : Int) (m : Memory),
      (worker_iteration_traced rand N m).2 = worker_iteration rand N m ∧
        ∃ held, lock_discipline none (worker_iteration_traced rand N m).1 = some held ∧
          ((worker_iteration_traced rand N m).2.isSome → held = none)) ∧
    (transfer_money_traced (scenario_memory 5000 15000 10000) (some 1) (some 2) 20000).1
        = [lock_event.lock BANK_MUTEX_INDEX, lock_event.unlock BANK_MUTEX_INDEX] ∧
      (get_bank_account_traced (scenario_memory 5000 15000 10000) "bank account 1").1
        = [lock_event.lock BANK_MUTEX_INDEX, lock_event.unlock BANK_MUTEX_INDEX] ∧
      (worker_iteration_traced sample_rand 3 sample_seeded_memory).1
        = [lock_event.lock RANDOM_MUTEX_INDEX, lock_event.unlock RANDOM_MUTEX_INDEX,
            lock_event.lock BANK_MUTEX_INDEX, lock_event.unlock BANK_MUTEX_INDEX,
            lock_event.lock BANK_MUTEX_INDEX, lock_event.unlock BANK_MUTEX_INDEX,
            lock_event.lock BANK_MUTEX_INDEX, lock_event.unlock BANK_MUTEX_INDEX,
            lock_event.lock TRANSACTION_COUNT_MUTEX_INDEX,
            lock_event.unlock TRANSACTION_COUNT_MUTEX_INDEX] :=
  ⟨fun m account => ⟨add_bank_account_traced_snd m account,
      add_bank_account_traced_discipline m account⟩,
    fun m => ⟨list_accounts_traced_snd m, list_accounts_traced_discipline m⟩,
    fun m identifier => ⟨get_bank_account_traced_snd m identifier,
      get_bank_account_traced_discipline m identifier⟩,
    fun m from_ to_ amount => ⟨transfer_money_traced_snd m from_ to_ amount,
      transfer_money_traced_discipline m from_ to_ amount⟩,
    fun rand N m => ⟨worker_iteration_traced_snd rand N m,
      worker_iteration_traced_discipline rand N m⟩,
    by decide, by decide, by decide⟩

/-! C12: several workers and the quota -/

/-- C12 (counterexample): two workers, quota 1, three seeded accounts.  In the
interleaving where worker 0 runs up to its quota test and then worker 1 runs up
to its own, `transaction_count` is 2, above the quota, while `program_running`
is still 1; when both have then run their final `if`, both have written
`program_running = 0` and `transaction_count` is 2, not 1. -/
theorem two_workers_overrun_quota :
    (run_schedule sample_rand 3 1 [0, 0, 0, 0, 0, 1, 1, 1, 1, 1]
        (initial_config sample_seeded_memory 2)).faulted = false ∧
    (run_schedule sample_rand 3 1 [0, 0, 0, 0, 0, 1, 1, 1, 1, 1]
        (initial_config sample_seeded_memory 2)).memory.transaction_count = 2 ∧
    (run_schedule sample_rand 3 1 [0, 0, 0, 0, 0, 1, 1, 1, 1, 1]
        (initial_config sample_seeded_memory 2)).memory.program_running = 1 ∧
    (run_schedule sample_rand 3 1 [0, 0, 0, 0, 0, 1, 1, 1, 1, 1]
        (initial_config sample_seeded_memory 2)).workers
      = [worker_pc.branch true, worker_pc.branch true] ∧
    (run_schedule sample_rand 3 1 [0, 0, 0, 0, 0, 1, 1, 1, 1, 1, 0, 1]
        (initial_config sample_seeded_memory 2)).workers = [worker_pc.done, worker_pc.done] ∧
    (run_schedule sample_rand 3 1 [0, 0, 0, 0, 0, 1, 1, 1, 1, 1, 0, 1]
        (initial_config sample_seeded_memory 2)).memory.transaction_count = 2 ∧
    (run_schedule sample_rand 3 1 [0, 0, 0, 0, 0, 1, 1, 1, 1, 1, 0, 1]
        (initial_config sample_seeded_memory 2)).memory.program_running = 0 ∧
    (((run_schedule sample_rand 3 1 [0, 0, 0, 0, 0, 1, 1, 1, 1, 1, 0, 1]
        (initial_config sample_seeded_memory 2)).workers.map wrote_flag).sum = 2) := by
  decide

/-- C12 (amended): for every `int` quota `Q >= 1`, every number `W >= 1` of
workers (with `Q + W - 1` an `int`), every non-negative `rand()` and every
interleaving of the critical sections of `W` workers started with
`transaction_count = 0` and `program_running = 1` on a registry the worker can
rely on: no worker faults; `transaction_count` stays between 0 and `Q + W - 1`;
the workers whose quota test was true are as many as the increments from the
`Q`-th on; `program_running` is 0 exactly when some worker has written it, and
then `transaction_count >= Q`; the effective steps of the interleaving and the
potential left add up to `6 * W + 6 * (Q - 1)`, so no interleaving has more
steps than that, and when the potential is used up every worker has returned;
and when every worker has returned, `transaction_count = Q + W - 1`,
`program_running = 0` and each of the `W` workers has written the flag. -/
theorem many_workers_reach_quota (rand : Nat → Int) (N Q : Int) (W : Nat) (m : Memory)
    (schedule : List Nat)
    (hrand : ∀ k, 0 ≤ rand k) (hN : 2 ≤ N) (hNint : N ≤ INT_MAX)
    (hQ : 1 ≤ Q) (hW : 1 ≤ W) (hint : Q + W - 1 ≤ INT_MAX)
    (hready : worker_ready N m) (hcount : m.transaction_count = 0)
    (hrunning : m.program_running = 1) :
    (run_schedule rand N Q schedule (initial_config m W)).faulted = false ∧
    (run_schedule rand N Q schedule (initial_config m W)).workers.length = W ∧
    0 ≤ (run_schedule rand N Q schedule (initial_config m W)).memory.transaction_count ∧
    (run_schedule rand N Q schedule (initial_config m W)).memory.transaction_count
      ≤ Q + W - 1 ∧
    ((((run_schedule rand N Q schedule (initial_config m W)).workers.map
        observed_quota).sum : Nat) : Int)
      = max 0 ((run_schedule rand N Q schedule (initial_config m W)).memory.transaction_count
          - Q + 1) ∧
    (((run_schedule rand N Q schedule (initial_config m W)).memory.program_running = 1 ∧
        ((run_schedule rand N Q schedule (initial_config m W)).workers.map wrote_flag).sum
          = 0) ∨
      ((run_schedule rand N Q schedule (initial_config m W)).memory.program_running = 0 ∧
        0 < ((run_schedule rand N Q schedule (initial_config m W)).workers.map
          wrote_flag).sum ∧
        Q ≤ (run_schedule rand N Q schedule
          (initial_config m W)).memory.transaction_count)) ∧
    potential Q (run_schedule rand N Q schedule (initial_config m W))
        + effective_steps rand N Q schedule (initial_config m W)
      = 6 * W + 6 * (Q - 1).toNat ∧
    (potential Q (run_schedule rand N Q schedule (initial_config m W)) = 0 →
      ∀ pc ∈ (run_schedule rand N Q schedule (initial_config m W)).workers,
        pc = worker_pc.done) ∧
    ((∀ pc ∈ (run_schedule rand N Q schedule (initial_config m W)).workers,
        pc = worker_pc.done) →
      (run_schedule rand N Q schedule (initial_config m W)).memory.transaction_count
          = Q + W - 1 ∧
        (run_schedule rand N Q schedule (initial_config m W)).memory.program_running = 0 ∧
        ((run_schedule rand N Q schedule (initial_config m W)).workers.map wrote_flag).sum
          = W) := by
  obtain ⟨hinit, hpot0⟩ := quota_invariant_initial N Q W hQ m hready hcount hrunning
  obtain ⟨⟨hfaulted, hlen, -, -, htc0, hobs, hflag⟩, hpot⟩ :=
    quota_invariant_run rand hrand N Q W hN hNint hint schedule _ hinit
  have hbound := sum_map_le_length observed_quota observed_quota_le_one
    (run_schedule rand N Q schedule (initial_config m W)).workers
  rw [hlen] at hbound
  have hle := sum_wrote_le_sum_observed
    (run_schedule rand N Q schedule (initial_config m W)).workers
  refine ⟨hfaulted, hlen, htc0, by omega, hobs, ?_, by rw [hpot, hpot0], ?_, ?_⟩
  · rcases hflag with ⟨h1, h2⟩ | ⟨h1, h2⟩
    · exact Or.inl ⟨h1, h2⟩
    · exact Or.inr ⟨h1, h2, by omega⟩
  · intro hzero
    unfold potential at hzero
    exact all_done_of_steps_left_zero _ (by omega)
  · intro hall
    have hO := sum_map_of_all_done observed_quota _ hall
    have hWr := sum_map_of_all_done wrote_flag _ hall
    rw [hlen] at hO hWr
    simp only [observed_quota, wrote_flag, mul_one] at hO hWr
    refine ⟨by omega, ?_, hWr⟩
    rcases hflag with ⟨h1, h2⟩ | ⟨h1, h2⟩
    · omega
    · exact h1

theorem sample_seeded_memory_ready : worker_ready ((3 : Nat) : Int) sample_seeded_memory :=
  worker_ready_of_seeded 3 sample_seeded_memory (by decide)
    (seeded_upto_loop sample_rand (fun k => by unfold sample_rand; omega) 3 0 initial_memory
      (by decide) (seeded_upto_zero initial_memory rfl))

/-- C12 (witness): two workers, quota 2, three seeded accounts, a complete
interleaving of 18 steps. -/
theorem many_workers_reach_quota_witness :
    ((∀ k, 0 ≤ sample_rand k) ∧ (2 : Int) ≤ ((3 : Nat) : Int) ∧ ((3 : Nat) : Int) ≤ INT_MAX ∧
      (1 : Int) ≤ 2 ∧ 1 ≤ 2 ∧ (2 : Int) + ((2 : Nat) : Int) - 1 ≤ INT_MAX ∧
      worker_ready ((3 : Nat) : Int) sample_seeded_memory ∧
      sample_seeded_memory.transaction_count = 0 ∧
      sample_seeded_memory.program_running = 1) ∧
    (run_schedule sample_rand ((3 : Nat) : Int) 2
        [0, 1, 0, 1, 0, 1, 0, 1, 0, 1, 0, 1, 0, 0, 0, 0, 0, 0]
        (initial_config sample_seeded_memory 2)).faulted = false ∧
    (run_schedule sample_rand ((3 : Nat) : Int) 2
        [0, 1, 0, 1, 0, 1, 0, 1, 0, 1, 0, 1, 0, 0, 0, 0, 0, 0]
        (initial_config sample_seeded_memory 2)).memory.transaction_count = 3 ∧
    (run_schedule sample_rand ((3 : Nat) : Int) 2
        [0, 1, 0, 1, 0, 1, 0, 1, 0, 1, 0, 1, 0, 0, 0, 0, 0, 0]
        (initial_config sample_seeded_memory 2)).workers = [worker_pc.done, worker_pc.done] ∧
    potential 2 (run_schedule sample_rand ((3 : Nat) : Int) 2
        [0, 1, 0, 1, 0, 1, 0, 1, 0, 1, 0, 1, 0, 0, 0, 0, 0, 0]
        (initial_config sample_seeded_memory 2))
        + effective_steps sample_rand ((3 : Nat) : Int) 2
          [0, 1, 0, 1, 0, 1, 0, 1, 0, 1, 0, 1, 0, 0, 0, 0, 0, 0]
          (initial_config sample_seeded_memory 2)
      = 6 * 2 + 6 * ((2 : Int) - 1).toNat :=
  ⟨⟨fun k => by unfold sample_rand; omega, by decide, by decide, by decide, by decide,
      by decide, sample_seeded_memory_ready, rfl, rfl⟩,
    (many_workers_reach_quota sample_rand ((3 : Nat) : Int) 2 2 sample_seeded_memory
      [0, 1, 0, 1, 0, 1, 0, 1, 0, 1, 0, 1, 0, 0, 0, 0, 0, 0]
      (fun k => by unfold sample_rand; omega) (by decide) (by decide) (by decide) (by decide)
      (by decide) sample_seeded_memory_ready rfl rfl).1,
    by decide, by decide,
    (many_workers_reach_quota sample_rand ((3 : Nat) : Int) 2 2 sample_seeded_memory
      [0, 1, 0, 1, 0, 1, 0, 1, 0, 1, 0, 1, 0, 0, 0, 0, 0, 0]
      (fun k => by unfold sample_rand; omega) (by decide) (by decide) (by decide) (by decide)
      (by decide) sample_seeded_memory_ready rfl rfl).2.2.2.2.2.2.1⟩

end MultithreadingBank
